import Mathlib

/-
Verification of the MIR low-level record parser and selection/filtering
engine (pyuvdata/uvdata/mir_parser.py and the selection portion of
pyuvdata/uvdata/mir.py).

Shallow embedding conventions:
  * numpy structured arrays become Lists of Lean structures carrying the
    fields the modelled code reads; int32/int16 fields are Int.
  * python dicts are modelled by their insertion sequence of key/value
    pairs; lookup takes the LAST matching insertion (python semantics for
    dicts built by comprehension / repeated insertion / update).
  * fallible python code (KeyError, IndexError on an empty fromfile read,
    raise) is modelled in Option or Except String.
  * binary files are Lists of byte values (Nat), with little-endian int32
    reads made explicit.
  * float32 arithmetic of the visibility decode is modelled exactly in the
    rationals: int16 mantissas scaled by powers of two are exactly
    representable in float32 in the claimed range.
  * while-loops walking a file are given explicit fuel that provably
    suffices on every input the theorems speak about; fuel exhaustion
    (an infinite python loop) is mapped to failure.
-/

set_option linter.unusedVariables false

namespace Mir

/-- Lookup in a python dict represented by its insertion sequence of
key/value pairs: the value of the LAST matching insertion wins, which is
python dict semantics for dicts built by comprehension, repeated
insertion, or update. -/
def pyGet {α β : Type} [DecidableEq α] : List (α × β) → α → Option β
  | [], _ => none
  | p :: rest, k =>
    match pyGet rest k with
    | some v => some v
    | none => if p.1 = k then some p.2 else none

/-- Map a fallible (KeyError/IndexError-raising) python expression over a
list, as in a list comprehension: the whole comprehension fails if any
element fails. -/
def optMapM {α β : Type} (f : α → Option β) : List α → Option (List β)
  | [] => some []
  | a :: l =>
    match f a, optMapM f l with
    | some b, some bs => some (b :: bs)
    | _, _ => none

/-- Insert into a sorted list of Int, keeping it sorted. -/
def sortedInsert (a : Int) : List Int → List Int
  | [] => [a]
  | b :: l => if a ≤ b then a :: b :: l else b :: sortedInsert a l

/-- np.unique: the sorted list of the distinct values of the input array. -/
def npUnique (l : List Int) : List Int := l.dedup.foldr sortedInsert []

/-- Boolean-mask indexing arr[mask] (numpy), for equal-length arr and mask. -/
def maskSelect {α : Type} (l : List α) (m : List Bool) : List α :=
  ((l.zip m).filter (fun p => p.2)).map (fun p => p.1)

/-- One row of in_read (integration table, in_dtype). Only fields the
modelled operations read are carried (inhid: primary key; isource: source
selection code); the remaining dtype fields are payload never inspected by
the filtering and decoding code under verification. -/
structure InRow where
  inhid : Int
  isource : Int
  deriving DecidableEq

/-- One row of eng_read (engineering table, eng_dtype): inhid foreign key. -/
structure EngRow where
  inhid : Int
  deriving DecidableEq

/-- One row of bl_read (baseline table, bl_dtype): blhid primary key, inhid
foreign key, and the selection codes read by read_mir. -/
structure BlRow where
  blhid : Int
  inhid : Int
  isb : Int
  ipol : Int
  irec : Int
  deriving DecidableEq

/-- One row of sp_read (spectral-record table, sp_dtype): sphid primary
key, blhid/inhid foreign keys, nch channel count, dataoff byte offset,
corrchunk selection code. -/
structure SpRow where
  sphid : Int
  blhid : Int
  inhid : Int
  nch : Int
  dataoff : Int
  corrchunk : Int
  deriving DecidableEq

/-- One row of we_read (weather table, we_dtype): scanNumber (used as the
inhid foreign key by _update_filter). -/
structure WeRow where
  scanNumber : Int
  deriving DecidableEq

/-- One row of ac_read (auto-correlation index, ac_read_dtype), as filled
in by scan_auto_data: (inhid, achid, antenna, nchunks, datasize, dataoff,
dhrs).  dhrs is a double copied verbatim from the file; it is kept as its
uninterpreted 8 bytes. -/
structure AcRow where
  inhid : Int
  achid : Int
  antenna : Int
  nchunks : Int
  datasize : Int
  dataoff : Int
  dhrs : List Nat
  deriving DecidableEq

/-- The MirParser object state: full read-in tables, the integration
offset index, user masks, derived filters, filtered table views, decoded
payload caches and the id→row-position dictionaries.  (codes_read,
antpos_data and the filepath string are never read by the operations under
verification and are omitted.) -/
structure MirParser where
  in_read : List InRow
  eng_read : List EngRow
  bl_read : List BlRow
  sp_read : List SpRow
  we_read : List WeRow
  ac_read : List AcRow
  in_start_dict : List (Int × (Int × Int))
  use_in : List Bool
  use_bl : List Bool
  use_sp : List Bool
  in_filter : List Bool
  eng_filter : List Bool
  bl_filter : List Bool
  sp_filter : List Bool
  we_filter : List Bool
  ac_filter : List Bool
  in_data : List InRow
  eng_data : List EngRow
  bl_data : List BlRow
  sp_data : List SpRow
  we_data : List WeRow
  ac_data : List AcRow
  vis_data : Option (List (List (ℚ × ℚ)))
  raw_data : Option (List (List Int))
  raw_scale_fac : Option (List Int)
  auto_data : Option (List (List ℚ))
  inhid_dict : List (Int × Nat)
  blhid_dict : List (Int × Nat)
  sphid_dict : List (Int × Nat)
  deriving DecidableEq

/-- The six derived filters computed by MirParser._update_filter. -/
structure Filters where
  in_f : List Bool
  eng_f : List Bool
  bl_f : List Bool
  sp_f : List Bool
  we_f : List Bool
  ac_f : List Bool
  deriving DecidableEq

/-- The dict sp_bl_check of _update_filter: every baseline blhid mapped to
False, then updated to True for each blhid occurring among the
sp_filter-selected spectral records (insertion sequence: the True entries
come last and win). -/
def spBlCheck (bl_read : List BlRow) (sp_read : List SpRow) (sp_filter : List Bool) :
    List (Int × Bool) :=
  (bl_read.map (fun b => (b.blhid, false))) ++
    (npUnique (maskSelect (sp_read.map (fun s => s.blhid)) sp_filter)).map (fun k => (k, true))

/-- The dict bl_in_check of _update_filter: every integration inhid mapped
to False, then updated to True for each inhid occurring among the
bl_filter-selected baselines. -/
def blInCheck (in_read : List InRow) (bl_read : List BlRow) (bl_filter : List Bool) :
    List (Int × Bool) :=
  (in_read.map (fun r => (r.inhid, false))) ++
    (npUnique (maskSelect (bl_read.map (fun b => b.inhid)) bl_filter)).map (fun k => (k, true))

/-- The filter-recomputation core of MirParser._update_filter
(mir_parser.py lines 293-349), made an explicit function of exactly the
data it reads: the six full read-in tables and the three user masks.
np.logical_and of two equal-length arrays is List.zipWith and (numpy
zip-truncates only through the python zip() calls, which List.zip
matches); a failed dict lookup (KeyError) fails the whole computation. -/
def computeFilters (in_read : List InRow) (eng_read : List EngRow) (bl_read : List BlRow)
    (sp_read : List SpRow) (we_read : List WeRow) (ac_read : List AcRow)
    (use_in use_bl use_sp : List Bool) : Option Filters :=
  let inhid_filter_dict := (in_read.map (fun r => r.inhid)).zip use_in
  match optMapM (fun (bl : BlRow) => pyGet inhid_filter_dict bl.inhid) bl_read with
  | none => none
  | some blIn =>
    let bl_filter1 := List.zipWith and use_bl blIn
    let blhid_filter_dict := (bl_read.map (fun b => b.blhid)).zip bl_filter1
    match optMapM (fun (sp : SpRow) => pyGet blhid_filter_dict sp.blhid) sp_read with
    | none => none
    | some spBl =>
      let sp_filter := List.zipWith and use_sp spBl
      match optMapM (fun (bl : BlRow) => pyGet (spBlCheck bl_read sp_read sp_filter) bl.blhid) bl_read with
      | none => none
      | some blCheck =>
        let bl_filter := List.zipWith and bl_filter1 blCheck
        match optMapM (fun (r : InRow) => pyGet (blInCheck in_read bl_read bl_filter) r.inhid) in_read with
        | none => none
        | some inCheck =>
          let in_filter := List.zipWith and use_in inCheck
          let inhid_filter_dict2 := (in_read.map (fun r => r.inhid)).zip in_filter
          match optMapM (fun (r : EngRow) => pyGet inhid_filter_dict2 r.inhid) eng_read,
                optMapM (fun (r : WeRow) => pyGet inhid_filter_dict2 r.scanNumber) we_read,
                optMapM (fun (r : AcRow) => pyGet inhid_filter_dict2 r.inhid) ac_read with
          | some eng_filter, some we_filter, some ac_filter =>
            some ⟨in_filter, eng_filter, bl_filter, sp_filter, we_filter, ac_filter⟩
          | _, _, _ => none

/-- MirParser._update_filter (mir_parser.py lines 282-377): recompute the
six derived filters from the full tables and user masks, re-slice the
filtered table views only when the in/bl/sp filters changed, always
rebuild the three id→row-position dictionaries, and return whether the
filters changed. -/
def updateFilter (s : MirParser) : Option (MirParser × Bool) :=
  match computeFilters s.in_read s.eng_read s.bl_read s.sp_read s.we_read s.ac_read
      s.use_in s.use_bl s.use_sp with
  | none => none
  | some f =>
    let changed : Bool := !(decide (f.sp_f = s.sp_filter) && decide (f.bl_f = s.bl_filter)
        && decide (f.in_f = s.in_filter))
    let in_data := if changed then maskSelect s.in_read f.in_f else s.in_data
    let bl_data := if changed then maskSelect s.bl_read f.bl_f else s.bl_data
    let sp_data := if changed then maskSelect s.sp_read f.sp_f else s.sp_data
    let eng_data := if changed then maskSelect s.eng_read f.eng_f else s.eng_data
    let we_data := if changed then maskSelect s.we_read f.we_f else s.we_data
    let ac_data := if changed then maskSelect s.ac_read f.ac_f else s.ac_data
    some ({ s with
        in_filter := f.in_f, eng_filter := f.eng_f, bl_filter := f.bl_f,
        sp_filter := f.sp_f, we_filter := f.we_f, ac_filter := f.ac_f,
        in_data := in_data, eng_data := eng_data, bl_data := bl_data,
        sp_data := sp_data, we_data := we_data, ac_data := ac_data,
        inhid_dict := in_data.enum.map (fun p => (p.2.inhid, p.1)),
        blhid_dict := bl_data.enum.map (fun p => (p.2.blhid, p.1)),
        sphid_dict := sp_data.enum.map (fun p => (p.2.sphid, p.1)) }, changed)

/-- MirParser.unload_data (mir_parser.py lines 416-423): clear vis_data,
raw_data and auto_data back to None when present. -/
def unload_data (s : MirParser) : MirParser :=
  let s1 := if s.vis_data ≠ none then { s with vis_data := none } else s
  let s2 := if s1.raw_data ≠ none then { s1 with raw_data := none } else s1
  if s2.auto_data ≠ none then { s2 with auto_data := none } else s2

/-- Exact value of an int16 mantissa m scaled by the per-record log2 scale
factor s, m * 2^s.  The python decode computes np.power(2.0, s,
dtype=single) times the mantissa in float32; for int16 mantissas and the
scale range the claims speak about this float32 arithmetic is exact, so it
is modelled exactly in ℚ. -/
def dyVal (s m : Int) : ℚ := (m : ℚ) * (2 : ℚ) ^ s

/-- View an even-length array of reals as complex pairs
(.view(dtype=np.csingle)): consecutive elements are paired up. -/
def pairUp {α : Type} : List α → List (α × α)
  | a :: b :: rest => (a, b) :: pairUp rest
  | _ => []

/-- Numpy integer ("fancy") indexing arr[i] for a possibly negative index:
a negative index wraps once from the end, anything further out of range is
an IndexError. -/
def npGet (l : List Int) (i : Int) : Option Int :=
  if 0 ≤ i then l[i.toNat]?
  else if 0 ≤ (l.length : Int) + i then l[((l.length : Int) + i).toNat]?
  else none

/-- Numpy slice endpoint resolution: negative endpoints count from the end,
then the endpoint is clamped into [0, len]. -/
def npClamp (len : Nat) (i : Int) : Nat :=
  if i < 0 then (max 0 ((len : Int) + i)).toNat else min i.toNat len

/-- Numpy slicing arr[i:j] (never raises; clamps both endpoints). -/
def npSlice (l : List Int) (i j : Int) : List Int :=
  let s := npClamp l.length i
  let e := npClamp l.length j
  (l.drop s).take (e - s)

/-- Visibility-mode decode of a single spectral record from the int16
element block of its integration (the body of parse_vis_data's inner
loop): the log2 scale factor sits at element dataoff//2, the 2*nch int16
mantissas follow, scale times mantissa is taken in float32 (exact here,
see dyVal) and the result is viewed as complex pairs. -/
def visDecodeRec (pack : List Int) (sp : SpRow) : List (ℚ × ℚ) :=
  let d := Int.fdiv sp.dataoff 2
  let s := (npGet pack d).getD 0
  pairUp ((npSlice pack (d + 1) (d + 1 + 2 * sp.nch)).map (fun m => dyVal s m))

/-- One unique-inhid iteration of parse_vis_data: the scale-factor fancy
index packdata[dataoff_subarr] is validated for every record of the
integration up front (np.power on the fancy-indexed array raises if any
dataoff is out of range); the records are then emitted grouped by each
spec_size of unique_nch, keeping their original order inside a group, each
tagged with its original sp_data position (sp_pos_list). -/
def visGroup (pack : List Int) (unique_nch : List Int) (recs : List (Nat × SpRow)) :
    Option (List (Nat × List (ℚ × ℚ))) :=
  match optMapM (fun pr => npGet pack (Int.fdiv pr.2.dataoff 2)) recs with
  | none => none
  | some _ => some ((unique_nch.map (fun c =>
      (recs.filter (fun pr => pr.2.nch == c)).map
        (fun pr => (pr.1, visDecodeRec pack pr.2)))).flatten)

/-- MirParser.parse_vis_data (mir_parser.py lines 604-660).  The file read
through read_vis_data is abstracted by packmap: packmap inhid is the int16
element block ("packdata") recorded in sch_read for that integration
(in_start_dict only serves to locate that block in the file).  Batches by
sorted unique inhid, groups by sorted unique nch, then un-batches through
the sp_pos dictionary so the output lines back up with sp_data order. -/
def parse_vis_data (packmap : Int → List Int) (sp_data : List SpRow) :
    Option (List (List (ℚ × ℚ))) :=
  let en := sp_data.enum
  let unique_inhid := npUnique (sp_data.map (fun s => s.inhid))
  let unique_nch := npUnique (sp_data.map (fun s => s.nch))
  match optMapM (fun a => visGroup (packmap a) unique_nch
      (en.filter (fun pr => pr.2.inhid == a))) unique_inhid with
  | none => none
  | some groups =>
    let pairs := groups.flatten
    optMapM (fun i => pyGet pairs i) (List.range pairs.length)

/-- The per-record visibility decode as the specification words it: the
int16 scale factor s sits at element dataoff/2 of the integration's
packed block, the 2*nch int16 mantissas follow as (real, imaginary)
pairs, and channel k of the decode is (pack[d+1+2k], pack[d+2+2k]) * 2^s.
This is the spec-side reference definition the decode claims compare
parse_vis_data against. -/
def specVisRecord (pack : List Int) (sp : SpRow) : List (ℚ × ℚ) :=
  let d := (Int.fdiv sp.dataoff 2).toNat
  let s := pack.getD d 0
  (List.range sp.nch.toNat).map (fun k =>
    (dyVal s (pack.getD (d + 1 + 2 * k) 0), dyVal s (pack.getD (d + 2 + 2 * k) 0)))

/-- The list of tagged decodes one unique-inhid iteration of
parse_vis_data contributes (proof-layer name for the body visGroup
returns on success). -/
def visGroupBody (packmap : Int → List Int) (sp_data : List SpRow) (a : Int) :
    List (Nat × List (ℚ × ℚ)) :=
  ((npUnique (sp_data.map (fun s => s.nch))).map (fun c =>
    ((sp_data.enum.filter (fun pr => pr.2.inhid == a)).filter (fun pr => pr.2.nch == c)).map
      (fun pr => (pr.1, visDecodeRec (packmap a) pr.2)))).flatten

/-- All tagged decodes parse_vis_data collects before its final
reordering (proof-layer name). -/
def visPairs (packmap : Int → List Int) (sp_data : List SpRow) : List (Nat × List (ℚ × ℚ)) :=
  ((npUnique (sp_data.map (fun s => s.inhid))).map (visGroupBody packmap sp_data)).flatten

/-- Default spectral record (used only as a getD fallback). -/
def spZero : SpRow := ⟨0, 0, 0, 0, 0, 0⟩

/-- Raw-mode decode of a single spectral record: the untouched int16
mantissa pairs (the scale factor is returned separately). -/
def rawDecodeRec (pack : List Int) (sp : SpRow) : List Int :=
  let d := Int.fdiv sp.dataoff 2
  npSlice pack (d + 1) (d + 1 + 2 * sp.nch)

/-- MirParser.parse_raw_data (mir_parser.py lines 662-711): same batching
by sorted unique inhid as parse_vis_data (file read abstracted by packmap
the same way), but keeping int16 mantissas and scale factors separate,
and with NO final reordering step. -/
def parse_raw_data (packmap : Int → List Int) (sp_data : List SpRow) :
    Option (List (List Int) × List Int) :=
  let unique_inhid := npUnique (sp_data.map (fun s => s.inhid))
  match optMapM (fun a =>
      match optMapM (fun (sp : SpRow) => npGet (packmap a) (Int.fdiv sp.dataoff 2))
          (sp_data.filter (fun sp => sp.inhid == a)) with
      | none => none
      | some scales => some (((sp_data.filter (fun sp => sp.inhid == a)).map
          (rawDecodeRec (packmap a))), scales)) unique_inhid with
  | none => none
  | some groups => some ((groups.map (fun g => g.1)).flatten, (groups.map (fun g => g.2)).flatten)

/-- Manual reconstruction of floating visibilities from a raw-mode record:
mantissa * 2^scale_factor for each value, then viewed as complex pairs
(the comparison the raw/visibility-equivalence claim prescribes). -/
def rawScaled (mant : List Int) (s : Int) : List (ℚ × ℚ) :=
  pairUp (mant.map (fun m => dyVal s m))

/-- Byte of a binary file at an index (files are Lists of byte values). -/
def byteAt (file : List Nat) (i : Nat) : Nat := file.getD i 0

/-- Little-endian signed int32 whose four bytes start at off. -/
def int32At (file : List Nat) (off : Nat) : Int :=
  let u := byteAt file off + 256 * byteAt file (off + 1) + 65536 * byteAt file (off + 2) +
    16777216 * byteAt file (off + 3)
  if u < 2147483648 then (u : Int) else (u : Int) - 4294967296

/-- The 8-byte (inhid, insize) record header of sch_read at a byte offset;
np.fromfile returns zero complete items (an IndexError on [0]) unless all
8 bytes are available. -/
def readHeader (file : List Nat) (off : Int) : Option (Int × Int) :=
  if 0 ≤ off ∧ off.toNat + 8 ≤ file.length then
    some (int32At file off.toNat, int32At file (off.toNat + 4))
  else none

/-- The while-loop of MirParser.scan_int_start: read the header at the
running byte offset, record inhid -> (insize + 8, offset), hop over the
payload.  Fuel bounds the iteration count; it provably suffices on every
input the theorems below consider, and running out of fuel (a python loop
that stops making progress) is mapped to failure. -/
def scanLoop (file : List Nat) : Nat → Int → List (Int × (Int × Int)) →
    Option (List (Int × (Int × Int)))
  | 0, _, _ => none
  | fuel + 1, data_offset, acc =>
    if data_offset < (file.length : Int) then
      match readHeader file data_offset with
      | none => none
      | some (inhid, insize) =>
        scanLoop file fuel (data_offset + insize + 8) (acc ++ [(inhid, (insize + 8, data_offset))])
    else some acc

/-- MirParser.scan_int_start (mir_parser.py lines 512-542): walk sch_read
reading only the 8-byte headers, building the inhid -> (record size
including header, byte offset) index.  The dict is represented by its
insertion sequence (ids are distinct in every input considered, so this
is exactly the python dict). -/
def scan_int_start (file : List Nat) : Option (List (Int × (Int × Int))) :=
  scanLoop file (file.length + 1) 0 []

/-- Little-endian bytes of an int32 value (two's complement). -/
def int32Bytes (v : Int) : List Nat :=
  let u := (v % 4294967296).toNat
  [u % 256, u / 256 % 256, u / 65536 % 256, u / 16777216 % 256]

/-- One visibility-blob record as the offset-index claims construct it:
an (id, byte-size) header followed by the payload bytes, the declared
size matching the actual payload. -/
def encodeRec (r : Int × List Nat) : List Nat :=
  int32Bytes r.1 ++ int32Bytes (r.2.length : Int) ++ r.2

/-- A well-formed visibility blob: the concatenation of records. -/
def encodeBlob (recs : List (Int × List Nat)) : List Nat := (recs.map encodeRec).flatten

/-- The offset-index entries scan_int_start should produce for a
well-formed blob laid out starting at a given byte offset. -/
def scanExpected : List (Int × List Nat) → Int → List (Int × (Int × Int))
  | [], _ => []
  | r :: rest, off =>
    (r.1, ((r.2.length : Int) + 8, off)) :: scanExpected rest (off + (r.2.length : Int) + 8)

/-- Size in bytes of one auto-correlation record for a chunk count n:
n chunks x 2^14 channels x 2 polarizations x 4 bytes + 20-byte header. -/
def autoRecSize (n : Int) : Int := 4 * 2 ^ 14 * n * 2 + 20

/-- The 20-byte (antenna, nChunks, scan, dhrs) header of autoCorrelations
at a byte offset; all 20 bytes must be available (np.fromfile otherwise
yields zero complete items and indexing [0] raises).  dhrs is kept as its
raw 8 bytes. -/
def readAutoHeader (file : List Nat) (off : Int) : Option (Int × Int × Int × List Nat) :=
  if 0 ≤ off ∧ off.toNat + 20 ≤ file.length then
    some (int32At file off.toNat, int32At file (off.toNat + 4), int32At file (off.toNat + 8),
      (file.drop (off.toNat + 12)).take 8)
  else none

/-- The while-loop of MirParser.scan_auto_data: on the first iteration
(data_offset == 0) the record size is validated against the file size and,
failing that, re-derived from the header's declared nChunks (raising the
index-derivation IndexError if even that does not reconcile), the record
array is allocated (np.zeros of a negative size raises ValueError), and
then every iteration reads a header and stores one index row.  python %
is Int.fmod and python // is Int.fdiv.  Fuel as in scanLoop. -/
def scanAutoLoop (file : List Nat) :
    Nat → Int → Int → Int → Nat → Nat → List AcRow → Except String (List AcRow)
  | 0, _, _, _, _, _, _ => .error "non-terminating scan"
  | fuel + 1, nchunks, last_offset, data_offset, marker, ac_size, acc =>
    if data_offset < (file.length : Int) then
      match readAutoHeader file data_offset with
      | none => .error "IndexError: index 0 is out of bounds for axis 0 with size 0"
      | some (antenna, nChunks, scan, dhrs) =>
        if data_offset = 0 then
          let nchunks1 := if Int.fmod (file.length : Int) (autoRecSize nchunks) ≠ 0 then nChunks
            else nchunks
          if Int.fmod (file.length : Int) (autoRecSize nchunks) ≠ 0 ∧
              Int.fmod (file.length : Int) (autoRecSize nchunks1) ≠ 0 then
            .error "Could not determine auto-correlation record size!"
          else
            let last1 := 4 * 2 ^ 14 * nchunks1 * 2
            let sizeI := Int.fdiv (file.length : Int) (autoRecSize nchunks1)
            if sizeI < 0 then .error "ValueError: negative dimensions are not allowed"
            else if marker < sizeI.toNat then
              scanAutoLoop file fuel nchunks1 last1 (data_offset + last1 + 20) (marker + 1)
                sizeI.toNat
                (acc ++ [⟨scan, (marker : Int) + 1, antenna, nchunks1, last1 + 20, data_offset, dhrs⟩])
            else .error "IndexError: marker is out of bounds"
        else
          if marker < ac_size then
            scanAutoLoop file fuel nchunks last_offset (data_offset + last_offset + 20) (marker + 1)
              ac_size
              (acc ++ [⟨scan, (marker : Int) + 1, antenna, nchunks, last_offset + 20, data_offset, dhrs⟩])
          else .error "IndexError: marker is out of bounds"
    else .ok acc

/-- MirParser.scan_auto_data (mir_parser.py lines 544-602), with the
default chunk count as its optional argument. -/
def scan_auto_data (file : List Nat) (nchunks : Int := 8) : Except String (List AcRow) :=
  scanAutoLoop file (file.length + 1) nchunks 0 0 0 0 []

/-- The selection/mask-building phase of Mir.read_mir (mir.py lines
63-123): default and validate the isource/irec/isb/corrchunk selections
and set the three user masks on the parser.  None-able python arguments
are Option; python "key in list" is List.contains; "corrchunk.remove(0)
if 0 in corrchunk" on the unique (hence duplicate-free) full list is
filtering 0 out. -/
def read_mir_masks (mir : MirParser) (isource : Option (List Int)) (irec : Option Int)
    (isb : Option (List Int)) (corrchunk : Option (List Int)) (pseudo_cont : Bool) :
    Except String MirParser :=
  let isource_full_list := npUnique (mir.in_read.map (fun r => r.isource))
  let isource1 := isource.getD isource_full_list
  let isource_dict := isource_full_list.map (fun k => (k, isource1.contains k))
  if isource_dict.length = 0 then .error "No valid sources selected!"
  else
    match (match irec with
      | some r => Except.ok r
      | none =>
        match mir.bl_read with
        | [] => Except.error "IndexError: index 0 is out of bounds for axis 0 with size 0"
        | b :: _ => Except.ok b.irec : Except String Int) with
    | .error e => .error e
    | .ok irec1 =>
      let isb_full_list := npUnique (mir.bl_read.map (fun b => b.isb))
      let isb1 := isb.getD isb_full_list
      let isb_dict := isb_full_list.map (fun k => (k, isb1.contains k))
      if isb1.length = 0 then .error "No valid sidebands selected!"
      else if !(isb1.all (fun x => isb_full_list.contains x)) then
        .error "isb values contain invalid entries"
      else
        let corrchunk_full_list := npUnique (mir.sp_read.map (fun s => s.corrchunk))
        let corrchunk1 := match corrchunk with
          | some c => c
          | none => if pseudo_cont then [0] else corrchunk_full_list.filter (fun x => x ≠ 0)
        let corrchunk_dict := corrchunk_full_list.map (fun k => (k, corrchunk1.contains k))
        match optMapM (fun (r : InRow) => pyGet isource_dict r.isource) mir.in_read with
        | none => .error "KeyError"
        | some use_in =>
          match optMapM (fun (b : BlRow) => pyGet isb_dict b.isb) mir.bl_read with
          | none => .error "KeyError"
          | some use_bl_isb =>
            let use_bl := List.zipWith and
              (mir.bl_read.map (fun b => decide (b.irec = irec1) && decide (b.ipol = 0)))
              use_bl_isb
            match optMapM (fun (sp : SpRow) => pyGet corrchunk_dict sp.corrchunk) mir.sp_read with
            | none => .error "KeyError"
            | some use_sp =>
              .ok { mir with use_in := use_in, use_bl := use_bl, use_sp := use_sp }

/-- The selection phase of Mir.read_mir through its zero-row check
(mir.py lines 63-128): build the masks, run _update_filter, and raise if
no integration records survive the combined selection. -/
def read_mir_select (mir : MirParser) (isource : Option (List Int)) (irec : Option Int)
    (isb : Option (List Int)) (corrchunk : Option (List Int)) (pseudo_cont : Bool) :
    Except String MirParser :=
  match read_mir_masks mir isource irec isb corrchunk pseudo_cont with
  | .error e => .error e
  | .ok mir1 =>
    match updateFilter mir1 with
    | none => .error "KeyError"
    | some (mir2, _) =>
      if mir2.in_data.length = 0 then .error "No valid records matching those selections!"
      else .ok mir2

/-- Observation used to state the zero-row error condition of read_mir:
_update_filter succeeds on the mask-set state and leaves an empty
filtered integration table. -/
def updateLeavesNoRecords (m : MirParser) : Bool :=
  match updateFilter m with
  | some p => p.1.in_data.isEmpty
  | none => false

/-- A minimal one-row-per-table dataset in the post-construction state
(all masks and filters true, data views equal to the read tables, id
dictionaries current). -/
def inA : InRow := ⟨1, 1⟩

def blA : BlRow := ⟨10, 1, 0, 0, 0⟩

def spA : SpRow := ⟨100, 10, 1, 1, 0, 1⟩

def acA : AcRow := ⟨1, 1, 1, 8, 131092, 0, [0, 0, 0, 0, 0, 0, 0, 0]⟩

def s0 : MirParser :=
  { in_read := [inA], eng_read := [⟨1⟩], bl_read := [blA], sp_read := [spA],
    we_read := [⟨1⟩], ac_read := [acA],
    in_start_dict := [(1, (16, 0))],
    use_in := [true], use_bl := [true], use_sp := [true],
    in_filter := [true], eng_filter := [true], bl_filter := [true],
    sp_filter := [true], we_filter := [true], ac_filter := [true],
    in_data := [inA], eng_data := [⟨1⟩], bl_data := [blA], sp_data := [spA],
    we_data := [⟨1⟩], ac_data := [acA],
    vis_data := none, raw_data := none, raw_scale_fac := none, auto_data := none,
    inhid_dict := [(1, 0)], blhid_dict := [(10, 0)], sphid_dict := [(100, 0)] }

/-- A dataset whose tables are all empty. -/
def emptyMir : MirParser :=
  { in_read := [], eng_read := [], bl_read := [], sp_read := [], we_read := [], ac_read := [],
    in_start_dict := [], use_in := [], use_bl := [], use_sp := [],
    in_filter := [], eng_filter := [], bl_filter := [], sp_filter := [],
    we_filter := [], ac_filter := [],
    in_data := [], eng_data := [], bl_data := [], sp_data := [], we_data := [], ac_data := [],
    vis_data := none, raw_data := none, raw_scale_fac := none, auto_data := none,
    inhid_dict := [], blhid_dict := [], sphid_dict := [] }

/-- One-record spectral table: nch = 1, dataoff = 0. -/
def sd4 : List SpRow := [⟨100, 10, 1, 1, 0, 1⟩]

/-- Packed block for sd4: scale factor 2, mantissa pair (3, -2). -/
def pm4 : Int → List Int := fun _ => [2, 3, -2]

/-- Two spectral records whose integration ids are NOT in sorted order
(inhid 2 first, then inhid 1). -/
def sd5 : List SpRow := [⟨101, 10, 2, 1, 0, 1⟩, ⟨102, 11, 1, 1, 0, 1⟩]

/-- Packed blocks for sd5: integration 1 holds mantissas (1, 1), and
integration 2 holds mantissas (5, 5), both at scale factor 0. -/
def pm5 : Int → List Int := fun a => if a = 1 then [0, 1, 1] else [0, 5, 5]

/-- Two well-formed records for a synthetic visibility blob. -/
def recs6 : List (Int × List Nat) := [(1, [7, 7]), (2, [])]

/-- An 8-byte sch_read file: a single header declaring a 100-byte payload
with zero payload bytes actually present (a truncated file). -/
def file8 : List Nat := int32Bytes 1 ++ int32Bytes 100

/-- A 10-byte autoCorrelations file (shorter than one 20-byte header). -/
def f10 : List Nat := List.replicate 10 0

/-- A 20-byte autoCorrelations file whose first header declares antenna 1,
nChunks 0, scan 5 (its size 20 is not a multiple of the default-chunk
record size, but is an exact multiple of the re-derived one). -/
def f20 : List Nat := int32Bytes 1 ++ int32Bytes 0 ++ int32Bytes 5 ++ List.replicate 8 0

/-- The dataset s0 in a fully data-loaded state. -/
def s9 : MirParser :=
  { s0 with vis_data := some [[(dyVal 0 1, dyVal 0 1)]], raw_data := some [[1, 1]],
            raw_scale_fac := some [3], auto_data := some [[]] }

/-- Basic bridge: getD with default false is true exactly when the index
is in range and the element there is true. -/
theorem getD_false_eq_true_iff (l : List Bool) (i : Nat) :
    l.getD i false = true ↔ ∃ h : i < l.length, l[i] = true := by
  rw [List.getD_eq_getElem?_getD]
  rcases Nat.lt_or_ge i l.length with h | h
  · rw [List.getElem?_eq_getElem h]
    simp [h]
  · rw [List.getElem?_eq_none h]
    simp
    omega

/-- Elementwise description of np.logical_and via getD. -/
theorem zipWith_and_getD {a b : List Bool} {i : Nat}
    (h : (List.zipWith and a b).getD i false = true) :
    a.getD i false = true ∧ b.getD i false = true := by
  rw [getD_false_eq_true_iff] at h
  obtain ⟨hlt, hv⟩ := h
  have hlen := List.length_zipWith and a b
  have hla : i < a.length := by omega
  have hlb : i < b.length := by omega
  rw [List.getElem_zipWith] at hv
  constructor
  · rw [getD_false_eq_true_iff]
    exact ⟨hla, (Bool.and_eq_true _ _ |>.mp hv).1⟩
  · rw [getD_false_eq_true_iff]
    exact ⟨hlb, (Bool.and_eq_true _ _ |>.mp hv).2⟩

/-- optMapM returns a list of the same length. -/
theorem optMapM_length {α β : Type} {f : α → Option β} :
    ∀ {l : List α} {l' : List β}, optMapM f l = some l' → l'.length = l.length := by
  intro l
  induction l with
  | nil => intro l' h; cases h; rfl
  | cons a t ih =>
    intro l' h
    unfold optMapM at h
    cases hfa : f a with
    | none => rw [hfa] at h; cases h
    | some b =>
      rw [hfa] at h
      cases hft : optMapM f t with
      | none => rw [hft] at h; cases h
      | some bs =>
        rw [hft] at h
        cases h
        simp [ih hft]

/-- optMapM computes f elementwise. -/
theorem optMapM_getElem {α β : Type} {f : α → Option β} :
    ∀ {l : List α} {l' : List β}, optMapM f l = some l' →
      ∀ i (h : i < l.length) (h' : i < l'.length), f (l[i]) = some (l'[i]) := by
  intro l
  induction l with
  | nil => intro l' h i hi; simp at hi
  | cons a t ih =>
    intro l' h i hi hi'
    unfold optMapM at h
    cases hfa : f a with
    | none => rw [hfa] at h; cases h
    | some b =>
      rw [hfa] at h
      cases hft : optMapM f t with
      | none => rw [hft] at h; cases h
      | some bs =>
        rw [hft] at h
        cases h
        cases i with
        | zero => simpa using hfa
        | succ j =>
          simp only [List.getElem_cons_succ]
          exact ih hft j (by simpa using hi) (by simpa using hi')

/-- optMapM succeeds when f succeeds on every element. -/
theorem optMapM_some {α β : Type} {f : α → Option β} {g : α → β} :
    ∀ {l : List α}, (∀ a ∈ l, f a = some (g a)) → optMapM f l = some (l.map g) := by
  intro l
  induction l with
  | nil => intro _; rfl
  | cons a t ih =>
    intro h
    unfold optMapM
    rw [h a (by simp), ih (fun x hx => h x (by simp [hx]))]
    rfl

/-- A successful pyGet lookup returns a pair present in the dict. -/
theorem pyGet_mem {α β : Type} [DecidableEq α] :
    ∀ {d : List (α × β)} {k : α} {v : β}, pyGet d k = some v → (k, v) ∈ d := by
  intro d
  induction d with
  | nil => intro k v h; cases h
  | cons p t ih =>
    intro k v h
    unfold pyGet at h
    cases hr : pyGet t k with
    | some w => rw [hr] at h; cases h; exact List.mem_cons_of_mem _ (ih hr)
    | none =>
      rw [hr] at h
      by_cases hk : p.1 = k
      · rw [if_pos hk] at h
        cases h
        exact List.mem_cons.mpr (Or.inl (by rw [← hk]))
      · rw [if_neg hk] at h
        cases h

/-- pyGet misses exactly the keys not inserted. -/
theorem pyGet_eq_none_iff {α β : Type} [DecidableEq α] :
    ∀ {d : List (α × β)} {k : α}, pyGet d k = none ↔ k ∉ d.map Prod.fst := by
  intro d
  induction d with
  | nil => intro k; simp [pyGet]
  | cons p t ih =>
    intro k
    unfold pyGet
    cases hr : pyGet t k with
    | some w =>
      have hkmem : k ∈ (p :: t).map Prod.fst := by
        simp only [List.map_cons, List.mem_cons]
        exact Or.inr (List.mem_map_of_mem Prod.fst (pyGet_mem hr))
      constructor
      · intro h
        cases h
      · intro h
        exact absurd hkmem h
    | none =>
      have hmem := ih.mp hr
      by_cases hk : p.1 = k
      · subst hk
        simp
      · have hk2 : ¬ (k = p.1) := fun he => hk he.symm
        simp only [if_neg hk, List.map_cons, List.mem_cons]
        constructor
        · intro _ hor
          rcases hor with he | hm
          · exact hk2 he
          · exact hmem hm
        · intro _
          trivial

/-- Last-wins lookup through an append: a hit in the suffix wins. -/
theorem pyGet_append_right {α β : Type} [DecidableEq α] {d e : List (α × β)} {k : α} {v : β}
    (h : pyGet e k = some v) : pyGet (d ++ e) k = some v := by
  induction d with
  | nil => simpa using h
  | cons p t ih =>
    show pyGet (p :: (t ++ e)) k = some v
    unfold pyGet
    rw [ih]

/-- Last-wins lookup through an append: a miss in the suffix defers to the
prefix. -/
theorem pyGet_append_left {α β : Type} [DecidableEq α] {d e : List (α × β)} {k : α}
    (h : pyGet e k = none) : pyGet (d ++ e) k = pyGet d k := by
  induction d with
  | nil => simpa using h
  | cons p t ih =>
    show pyGet (p :: (t ++ e)) k = pyGet (p :: t) k
    unfold pyGet
    rw [ih]

/-- Lookup in a constant-valued dict over a key list. -/
theorem pyGet_map_const {α β : Type} [DecidableEq α] {ks : List α} {k : α} {c : β} :
    pyGet (ks.map (fun x => (x, c))) k = if k ∈ ks then some c else none := by
  induction ks with
  | nil => simp [pyGet]
  | cons a t ih =>
    show pyGet ((a, c) :: t.map (fun x => (x, c))) k = _
    unfold pyGet
    rw [ih]
    by_cases hm : k ∈ t
    · simp [hm]
    · by_cases hk : a = k
      · subst hk
        simp [hm]
      · have hk2 : ¬ (k = a) := fun he => hk he.symm
        simp [hm, hk, hk2]

/-- Lookup of the j-th key in a dict zipped from nodup keys and values. -/
theorem pyGet_zip_nodup {α β : Type} [DecidableEq α] :
    ∀ {ks : List α} {vs : List β}, ks.Nodup →
      ∀ {j} (hj : j < ks.length) (hv : j < vs.length), pyGet (ks.zip vs) (ks[j]) = some (vs[j]) := by
  intro ks
  induction ks with
  | nil => intro vs _ j hj; simp at hj
  | cons a t ih =>
    intro vs hnd j hj hv
    cases vs with
    | nil => simp at hv
    | cons b tv =>
      show pyGet ((a, b) :: t.zip tv) _ = _
      cases j with
      | zero =>
        simp only [List.getElem_cons_zero]
        unfold pyGet
        have hnone : pyGet (t.zip tv) a = none := by
          rw [pyGet_eq_none_iff]
          intro hmem
          obtain ⟨p, hp, hp1⟩ := List.mem_map.mp hmem
          refine (List.nodup_cons.mp hnd).1 ?_
          have hz := List.of_mem_zip hp
          rw [hp1] at hz
          exact hz.1
        rw [hnone]
        simp
      | succ i =>
        simp only [List.getElem_cons_succ]
        unfold pyGet
        have hih := ih (List.nodup_cons.mp hnd).2 (j := i) (by simpa using hj) (by simpa using hv)
        rw [hih]

/-- Membership in sortedInsert. -/
theorem mem_sortedInsert {a b : Int} : ∀ {l : List Int}, b ∈ sortedInsert a l ↔ b = a ∨ b ∈ l := by
  intro l
  induction l with
  | nil => simp [sortedInsert]
  | cons c t ih =>
    unfold sortedInsert
    by_cases h : a ≤ c
    · simp [h]
    · simp only [if_neg h, List.mem_cons, ih]
      tauto

/-- Membership in a fold of sortedInsert. -/
theorem mem_foldr_sortedInsert {a : Int} :
    ∀ {m : List Int}, a ∈ m.foldr sortedInsert [] ↔ a ∈ m := by
  intro m
  induction m with
  | nil => simp
  | cons c t ih => simp [List.foldr_cons, mem_sortedInsert, ih]

/-- Membership in np.unique. -/
theorem mem_npUnique {a : Int} {l : List Int} : a ∈ npUnique l ↔ a ∈ l := by
  unfold npUnique
  rw [mem_foldr_sortedInsert, List.mem_dedup]

/-- sortedInsert of a fresh element preserves Nodup. -/
theorem nodup_sortedInsert {a : Int} :
    ∀ {l : List Int}, a ∉ l → l.Nodup → (sortedInsert a l).Nodup := by
  intro l
  induction l with
  | nil => intro _ _; simp [sortedInsert]
  | cons c t ih =>
    intro hna hnd
    unfold sortedInsert
    by_cases h : a ≤ c
    · rw [if_pos h]
      refine List.nodup_cons.mpr ⟨by simpa using hna, hnd⟩
    · rw [if_neg h]
      refine List.nodup_cons.mpr ⟨?_, ih (fun hm => hna (by simp [hm])) (List.nodup_cons.mp hnd).2⟩
      rw [mem_sortedInsert]
      push_neg
      constructor
      · intro he
        exact h (le_of_eq he.symm)
      · exact (List.nodup_cons.mp hnd).1

/-- np.unique returns distinct values. -/
theorem nodup_npUnique {l : List Int} : (npUnique l).Nodup := by
  unfold npUnique
  have key : ∀ (m : List Int), m.Nodup → (m.foldr sortedInsert []).Nodup := by
    intro m
    induction m with
    | nil => intro _; simp
    | cons c t ih =>
      intro hnd
      simp only [List.foldr_cons]
      refine nodup_sortedInsert ?_ (ih (List.nodup_cons.mp hnd).2)
      rw [mem_foldr_sortedInsert]
      exact (List.nodup_cons.mp hnd).1
  exact key _ (List.nodup_dedup l)

/-- Destructuring of a successful computeFilters run into its
intermediate comprehension lists and the defining equations of the
in/bl/sp filters. -/
theorem computeFilters_spec {in_read : List InRow} {eng_read : List EngRow} {bl_read : List BlRow}
    {sp_read : List SpRow} {we_read : List WeRow} {ac_read : List AcRow}
    {use_in use_bl use_sp : List Bool} {f : Filters}
    (h : computeFilters in_read eng_read bl_read sp_read we_read ac_read
      use_in use_bl use_sp = some f) :
    ∃ blIn spBl blCheck inCheck,
      optMapM (fun (bl : BlRow) => pyGet ((in_read.map (fun r => r.inhid)).zip use_in) bl.inhid)
        bl_read = some blIn ∧
      optMapM (fun (sp : SpRow) => pyGet ((bl_read.map (fun b => b.blhid)).zip
        (List.zipWith and use_bl blIn)) sp.blhid) sp_read = some spBl ∧
      optMapM (fun (bl : BlRow) => pyGet (spBlCheck bl_read sp_read
        (List.zipWith and use_sp spBl)) bl.blhid) bl_read = some blCheck ∧
      optMapM (fun (r : InRow) => pyGet (blInCheck in_read bl_read
        (List.zipWith and (List.zipWith and use_bl blIn) blCheck)) r.inhid) in_read
        = some inCheck ∧
      f.sp_f = List.zipWith and use_sp spBl ∧
      f.bl_f = List.zipWith and (List.zipWith and use_bl blIn) blCheck ∧
      f.in_f = List.zipWith and use_in inCheck := by
  unfold computeFilters at h
  try dsimp only at h
  cases h1 : optMapM (fun (bl : BlRow) => pyGet ((in_read.map (fun r => r.inhid)).zip use_in)
      bl.inhid) bl_read with
  | none => rw [h1] at h; cases h
  | some blIn =>
    rw [h1] at h
    try dsimp only at h
    cases h2 : optMapM (fun (sp : SpRow) => pyGet ((bl_read.map (fun b => b.blhid)).zip
        (List.zipWith and use_bl blIn)) sp.blhid) sp_read with
    | none => rw [h2] at h; cases h
    | some spBl =>
      rw [h2] at h
      try dsimp only at h
      cases h3 : optMapM (fun (bl : BlRow) => pyGet (spBlCheck bl_read sp_read
          (List.zipWith and use_sp spBl)) bl.blhid) bl_read with
      | none => rw [h3] at h; cases h
      | some blCheck =>
        rw [h3] at h
        try dsimp only at h
        cases h4 : optMapM (fun (r : InRow) => pyGet (blInCheck in_read bl_read
            (List.zipWith and (List.zipWith and use_bl blIn) blCheck)) r.inhid) in_read with
        | none => rw [h4] at h; cases h
        | some inCheck =>
          rw [h4] at h
          try dsimp only at h
          cases h5 : optMapM (fun (r : EngRow) => pyGet ((in_read.map (fun r => r.inhid)).zip
              (List.zipWith and use_in inCheck)) r.inhid) eng_read with
          | none => rw [h5] at h; cases h
          | some engF =>
            rw [h5] at h
            try dsimp only at h
            cases h6 : optMapM (fun (r : WeRow) => pyGet ((in_read.map (fun r => r.inhid)).zip
                (List.zipWith and use_in inCheck)) r.scanNumber) we_read with
            | none => rw [h6] at h; cases h
            | some weF =>
              rw [h6] at h
              try dsimp only at h
              cases h7 : optMapM (fun (r : AcRow) => pyGet ((in_read.map (fun r => r.inhid)).zip
                  (List.zipWith and use_in inCheck)) r.inhid) ac_read with
              | none => rw [h7] at h; cases h
              | some acF =>
                rw [h7] at h
                try dsimp only at h
                cases h
                exact ⟨blIn, spBl, blCheck, inCheck, rfl, h2, h3, h4, rfl, rfl, rfl⟩

/-- Destructuring of a successful updateFilter run: the computed Filters
value, the fields of the result state that the filter claims speak about,
and the unchanged read tables and user masks. -/
theorem updateFilter_spec {s s1 : MirParser} {c : Bool}
    (h : updateFilter s = some (s1, c)) :
    ∃ f, computeFilters s.in_read s.eng_read s.bl_read s.sp_read s.we_read s.ac_read
        s.use_in s.use_bl s.use_sp = some f ∧
      s1.in_filter = f.in_f ∧ s1.bl_filter = f.bl_f ∧ s1.sp_filter = f.sp_f ∧
      s1.in_read = s.in_read ∧ s1.bl_read = s.bl_read ∧ s1.sp_read = s.sp_read ∧
      s1.use_in = s.use_in ∧ s1.use_bl = s.use_bl ∧ s1.use_sp = s.use_sp := by
  unfold updateFilter at h
  cases hc : computeFilters s.in_read s.eng_read s.bl_read s.sp_read s.we_read s.ac_read
      s.use_in s.use_bl s.use_sp with
  | none => rw [hc] at h; cases h
  | some f =>
    rw [hc] at h
    simp only [Option.some.injEq, Prod.mk.injEq] at h
    obtain ⟨hS, hch⟩ := h
    refine ⟨f, rfl, ?_⟩
    rw [← hS]
    exact ⟨rfl, rfl, rfl, rfl, rfl, rfl, rfl, rfl, rfl⟩

/-- A true-masked element is a member of the mask selection. -/
theorem mem_maskSelect {α : Type} {l : List α} {m : List Bool} {i : Nat}
    (hi : i < l.length) (him : i < m.length) (h : m[i] = true) :
    l[i] ∈ maskSelect l m := by
  unfold maskSelect
  refine List.mem_map.mpr ⟨(l[i], m[i]), ?_, rfl⟩
  refine List.mem_filter.mpr ⟨?_, by simp [h]⟩
  have hz : i < (l.zip m).length := by
    rw [List.length_zip]
    omega
  have hze : (l.zip m)[i] = (l[i], m[i]) := List.getElem_zip (h := hz)
  rw [← hze]
  exact List.getElem_mem _

/-- C2: for every dataset and every setting of the user masks, after
_update_filter returns, for each of the integration, baseline and
spectral-record tables and every row index i, the derived filter
(in_filter/bl_filter/sp_filter) being true at i implies the corresponding
user mask (use_in/use_bl/use_sp) is true at i: the derived filters never
re-include a row the user excluded. -/
theorem mask_monotonicity (s s1 : MirParser) (c : Bool)
    (h : updateFilter s = some (s1, c)) (i : Nat) :
    (s1.in_filter.getD i false = true → s.use_in.getD i false = true) ∧
    (s1.bl_filter.getD i false = true → s.use_bl.getD i false = true) ∧
    (s1.sp_filter.getD i false = true → s.use_sp.getD i false = true) := by
  obtain ⟨f, hc, hif, hbf, hsf, -, -, -, -, -, -⟩ := updateFilter_spec h
  obtain ⟨blIn, spBl, blCheck, inCheck, -, -, -, -, hspf, hblf, hinf⟩ := computeFilters_spec hc
  refine ⟨?_, ?_, ?_⟩
  · intro ht
    rw [hif, hinf] at ht
    exact (zipWith_and_getD ht).1
  · intro ht
    rw [hbf, hblf] at ht
    exact (zipWith_and_getD (zipWith_and_getD ht).1).1
  · intro ht
    rw [hsf, hspf] at ht
    exact (zipWith_and_getD ht).1

/-- Witness for mask_monotonicity at the concrete dataset s0. -/
theorem mask_monotonicity_witness :
    (updateFilter s0 = some (s0, false)) ∧
    ((s0.in_filter.getD 0 false = true → s0.use_in.getD 0 false = true) ∧
     (s0.bl_filter.getD 0 false = true → s0.use_bl.getD 0 false = true) ∧
     (s0.sp_filter.getD 0 false = true → s0.use_sp.getD 0 false = true)) :=
  ⟨by decide, mask_monotonicity s0 s0 false (by decide) 0⟩

/-- C1: in a dataset where every spectral record's blhid resolves to
exactly one baseline row and every baseline's inhid resolves to exactly
one integration row, after _update_filter returns, every spectral record
whose sp_filter entry is true has a true bl_filter entry at its baseline's
row, and every baseline whose bl_filter entry is true has a true
in_filter entry at its integration's row. -/
theorem hierarchy_consistency (s s1 : MirParser) (c : Bool)
    (h : updateFilter s = some (s1, c))
    (hkb : (s.bl_read.map (fun b => b.blhid)).Nodup)
    (hki : (s.in_read.map (fun r => r.inhid)).Nodup)
    (hres_sp : ∀ sp ∈ s.sp_read, sp.blhid ∈ s.bl_read.map (fun b => b.blhid))
    (hres_bl : ∀ bl ∈ s.bl_read, bl.inhid ∈ s.in_read.map (fun r => r.inhid))
    (hlu_bl : s.use_bl.length = s.bl_read.length)
    (hlu_in : s.use_in.length = s.in_read.length) :
    (∀ i (hi : i < s.sp_read.length) (j) (hj : j < s.bl_read.length),
        s1.sp_filter.getD i false = true →
        (s.bl_read[j]).blhid = (s.sp_read[i]).blhid →
        s1.bl_filter.getD j false = true) ∧
    (∀ j (hj : j < s.bl_read.length) (r) (hr : r < s.in_read.length),
        s1.bl_filter.getD j false = true →
        (s.in_read[r]).inhid = (s.bl_read[j]).inhid →
        s1.in_filter.getD r false = true) := by
  obtain ⟨f, hc, hif, hbf, hsf, -, -, -, -, -, -⟩ := updateFilter_spec h
  obtain ⟨blIn, spBl, blCheck, inCheck, h1, h2, h3, h4, hspf, hblf, hinf⟩ :=
    computeFilters_spec hc
  have hlBlIn : blIn.length = s.bl_read.length := optMapM_length h1
  have hlspBl : spBl.length = s.sp_read.length := optMapM_length h2
  have hlblCheck : blCheck.length = s.bl_read.length := optMapM_length h3
  have hlinCheck : inCheck.length = s.in_read.length := optMapM_length h4
  have hl1 : (List.zipWith and s.use_bl blIn).length = s.bl_read.length := by
    rw [List.length_zipWith]
    omega
  constructor
  · intro i hi j hj ht heq
    rw [hsf, hspf, getD_false_eq_true_iff] at ht
    obtain ⟨hilt, hval⟩ := ht
    have hval0 := hval
    have hispBl : i < spBl.length := by
      have := List.length_zipWith and s.use_sp spBl
      omega
    rw [List.getElem_zipWith] at hval
    have hspBli : spBl[i] = true := (Bool.and_eq_true _ _ |>.mp hval).2
    -- spBl[i] is the lookup of the record's blhid in the blhid -> bl_filter1 dict
    have hlook := optMapM_getElem h2 i hi hispBl
    have hjm : j < (s.bl_read.map (fun b => b.blhid)).length := by
      rw [List.length_map]
      exact hj
    have hjv : j < (List.zipWith and s.use_bl blIn).length := by omega
    have hkey := pyGet_zip_nodup hkb (j := j) hjm hjv
    rw [List.getElem_map] at hkey
    rw [heq] at hkey
    rw [hkey] at hlook
    have hbl1j : (List.zipWith and s.use_bl blIn)[j] = true := by
      have := Option.some.inj hlook
      rw [this]
      exact hspBli
    -- the record's blhid is among the sp_filter-selected blhids
    have hmem : (s.sp_read[i]).blhid ∈
        npUnique (maskSelect (s.sp_read.map (fun t => t.blhid)) (List.zipWith and s.use_sp spBl)) := by
      rw [mem_npUnique]
      have him : i < (s.sp_read.map (fun t => t.blhid)).length := by
        rw [List.length_map]
        exact hi
      have := mem_maskSelect (l := s.sp_read.map (fun t => t.blhid))
        (m := List.zipWith and s.use_sp spBl) (i := i) him hilt hval0
      rw [List.getElem_map] at this
      exact this
    have hcheck : pyGet (spBlCheck s.bl_read s.sp_read (List.zipWith and s.use_sp spBl))
        ((s.sp_read[i]).blhid) = some true := by
      unfold spBlCheck
      refine pyGet_append_right ?_
      rw [pyGet_map_const, if_pos hmem]
    have hjc : j < blCheck.length := by omega
    have hlook3 := optMapM_getElem h3 j hj hjc
    rw [heq, hcheck] at hlook3
    have hblCj : blCheck[j] = true := (Option.some.inj hlook3).symm
    rw [hbf, hblf, getD_false_eq_true_iff]
    have hjlt : j < (List.zipWith and (List.zipWith and s.use_bl blIn) blCheck).length := by
      rw [List.length_zipWith]
      omega
    refine ⟨hjlt, ?_⟩
    rw [List.getElem_zipWith, hbl1j, hblCj]
    rfl
  · intro j hj r hr ht heq
    rw [hbf, hblf, getD_false_eq_true_iff] at ht
    obtain ⟨hjlt, hval⟩ := ht
    have hval0 := hval
    have hjbl1 : j < (List.zipWith and s.use_bl blIn).length := by
      have := List.length_zipWith and (List.zipWith and s.use_bl blIn) blCheck
      omega
    rw [List.getElem_zipWith] at hval
    have hbl1j : (List.zipWith and s.use_bl blIn)[j] = true :=
      (Bool.and_eq_true _ _ |>.mp hval).1
    have hjBlIn : j < blIn.length := by omega
    have hblInj : blIn[j] = true := by
      have hv := hbl1j
      rw [List.getElem_zipWith] at hv
      exact (Bool.and_eq_true _ _ |>.mp hv).2
    -- blIn[j] is the lookup of the baseline's inhid in the inhid -> use_in dict
    have hlook1 := optMapM_getElem h1 j hj hjBlIn
    have hrm : r < (s.in_read.map (fun t => t.inhid)).length := by
      rw [List.length_map]
      exact hr
    have hrv : r < s.use_in.length := by omega
    have hkey := pyGet_zip_nodup hki (j := r) hrm hrv
    rw [List.getElem_map] at hkey
    rw [heq] at hkey
    rw [hkey] at hlook1
    have husein : s.use_in[r] = true := by
      have := Option.some.inj hlook1
      rw [this]
      exact hblInj
    -- the baseline's inhid is among the bl_filter-selected inhids
    have hmem : (s.bl_read[j]).inhid ∈ npUnique (maskSelect (s.bl_read.map (fun b => b.inhid))
        (List.zipWith and (List.zipWith and s.use_bl blIn) blCheck)) := by
      rw [mem_npUnique]
      have hjm2 : j < (s.bl_read.map (fun b => b.inhid)).length := by
        rw [List.length_map]
        exact hj
      have := mem_maskSelect (l := s.bl_read.map (fun b => b.inhid))
        (m := List.zipWith and (List.zipWith and s.use_bl blIn) blCheck) (i := j) hjm2 hjlt hval0
      rw [List.getElem_map] at this
      exact this
    have hcheck : pyGet (blInCheck s.in_read s.bl_read
        (List.zipWith and (List.zipWith and s.use_bl blIn) blCheck))
        ((s.bl_read[j]).inhid) = some true := by
      unfold blInCheck
      refine pyGet_append_right ?_
      rw [pyGet_map_const, if_pos hmem]
    have hrc : r < inCheck.length := by omega
    have hlook4 := optMapM_getElem h4 r hr hrc
    rw [heq, hcheck] at hlook4
    have hinCr : inCheck[r] = true := (Option.some.inj hlook4).symm
    rw [hif, hinf, getD_false_eq_true_iff]
    have hrlt : r < (List.zipWith and s.use_in inCheck).length := by
      rw [List.length_zipWith]
      omega
    refine ⟨hrlt, ?_⟩
    rw [List.getElem_zipWith, husein, hinCr]
    rfl

/-- Witness for hierarchy_consistency at the concrete dataset s0. -/
theorem hierarchy_consistency_witness :
    (updateFilter s0 = some (s0, false)) ∧
    (s0.sp_filter.getD 0 false = true → (s0.bl_read.getD 0 blA).blhid
      = (s0.sp_read.getD 0 spA).blhid → s0.bl_filter.getD 0 false = true) := by
  have hmain := hierarchy_consistency s0 s0 false (by decide) (by decide) (by decide)
    (by decide) (by decide) (by decide) (by decide)
  refine ⟨by decide, ?_⟩
  intro hsp hkey
  exact hmain.1 0 (by decide) 0 (by decide) hsp (by decide)

/-- C3: the filters computed by _update_filter are a pure function of the
full read-in tables and the use_* masks, so calling it twice in a row
without modifying use_in/use_bl/use_sp produces the identical state after
each call (filtered tables, filters and dictionaries included) and the
second call returns False (no change). -/
theorem update_filter_idempotent (s s1 : MirParser) (c1 : Bool)
    (h : updateFilter s = some (s1, c1)) :
    updateFilter s1 = some (s1, false) := by
  unfold updateFilter at h
  cases hc : computeFilters s.in_read s.eng_read s.bl_read s.sp_read s.we_read s.ac_read
      s.use_in s.use_bl s.use_sp with
  | none => rw [hc] at h; cases h
  | some f =>
    rw [hc] at h
    try dsimp only at h
    simp only [Option.some.injEq, Prod.mk.injEq] at h
    obtain ⟨hS, hch⟩ := h
    subst hS
    unfold updateFilter
    dsimp only
    rw [hc]
    dsimp only
    simp

/-- Witness for idempotence at the concrete dataset s0. -/
theorem update_filter_idempotent_witness :
    updateFilter s0 = some (s0, false) :=
  update_filter_idempotent s0 s0 false (by decide)

/-- C9 amended: unload_data clears vis_data, raw_data and auto_data back
to the not-loaded state and leaves every other field unchanged — where
"every other field" includes raw_scale_fac, which unload_data does NOT
clear. -/
theorem unload_data_spec (s : MirParser) :
    (unload_data s).vis_data = none ∧ (unload_data s).raw_data = none ∧
    (unload_data s).auto_data = none ∧
    (unload_data s).raw_scale_fac = s.raw_scale_fac ∧
    (unload_data s).in_read = s.in_read ∧ (unload_data s).eng_read = s.eng_read ∧
    (unload_data s).bl_read = s.bl_read ∧ (unload_data s).sp_read = s.sp_read ∧
    (unload_data s).we_read = s.we_read ∧ (unload_data s).ac_read = s.ac_read ∧
    (unload_data s).in_start_dict = s.in_start_dict ∧
    (unload_data s).use_in = s.use_in ∧ (unload_data s).use_bl = s.use_bl ∧
    (unload_data s).use_sp = s.use_sp ∧
    (unload_data s).in_filter = s.in_filter ∧ (unload_data s).eng_filter = s.eng_filter ∧
    (unload_data s).bl_filter = s.bl_filter ∧ (unload_data s).sp_filter = s.sp_filter ∧
    (unload_data s).we_filter = s.we_filter ∧ (unload_data s).ac_filter = s.ac_filter ∧
    (unload_data s).in_data = s.in_data ∧ (unload_data s).eng_data = s.eng_data ∧
    (unload_data s).bl_data = s.bl_data ∧ (unload_data s).sp_data = s.sp_data ∧
    (unload_data s).we_data = s.we_data ∧ (unload_data s).ac_data = s.ac_data ∧
    (unload_data s).inhid_dict = s.inhid_dict ∧ (unload_data s).blhid_dict = s.blhid_dict ∧
    (unload_data s).sphid_dict = s.sphid_dict := by
  unfold unload_data
  rcases hv : s.vis_data <;> rcases hr : s.raw_data <;> rcases ha : s.auto_data <;>
    simp [hv, hr, ha]

/-- Counterexample to C9 as stated: unloading a fully loaded state leaves
the raw-decode scale factors (raw_scale_fac) in place rather than
clearing them to the not-loaded None state. -/
theorem unload_keeps_scale_fac :
    (unload_data s9).raw_scale_fac = some [3] ∧ (unload_data s9).raw_scale_fac ≠ none := by
  decide

/-- np.unique of a nonempty array is nonempty. -/
theorem npUnique_ne_nil {l : List Int} (h : l ≠ []) : npUnique l ≠ [] := by
  cases l with
  | nil => exact absurd rfl h
  | cons a t =>
    intro hcontra
    have hmem : a ∈ npUnique (a :: t) := mem_npUnique.mpr (by simp)
    rw [hcontra] at hmem
    cases hmem

/-- C10 amended: which empty-selection error read_mir raises.
(a) "No valid sources selected!" is raised exactly when the dataset's
full source list is empty (the integration table has no rows), whatever
the isource argument is — an isource selection matching zero existing
sources does NOT raise it;
(b) "No valid sidebands selected!" is raised when the effective isb
selection list is empty (shown for a nonempty dataset with an explicit
irec);
(c) "No valid records matching those selections!" is raised when, after
the masks are built, _update_filter leaves an empty filtered integration
table — which is where a zero-match isource selection surfaces. -/
theorem read_mir_empty_selection_errors :
    (∀ (mir : MirParser) isource irec isb corrchunk pseudo_cont,
      mir.in_read = [] →
      read_mir_select mir isource irec isb corrchunk pseudo_cont =
        .error "No valid sources selected!") ∧
    (∀ (mir : MirParser) isource (r : Int) corrchunk pseudo_cont,
      mir.in_read ≠ [] →
      read_mir_select mir isource (some r) (some []) corrchunk pseudo_cont =
        .error "No valid sidebands selected!") ∧
    (∀ (mir : MirParser) isource irec isb corrchunk pseudo_cont mir1,
      read_mir_masks mir isource irec isb corrchunk pseudo_cont = .ok mir1 →
      updateLeavesNoRecords mir1 = true →
      read_mir_select mir isource irec isb corrchunk pseudo_cont =
        .error "No valid records matching those selections!") := by
  refine ⟨?_, ?_, ?_⟩
  · intro mir isource irec isb corrchunk pc hin
    unfold read_mir_select read_mir_masks
    rw [hin]
    rfl
  · intro mir isource r corrchunk pc hne
    unfold read_mir_select read_mir_masks
    have hfull : npUnique (mir.in_read.map (fun t => t.isource)) ≠ [] := by
      apply npUnique_ne_nil
      simp only [ne_eq, List.map_eq_nil_iff]
      exact hne
    simp only [List.length_map, List.length_eq_zero]
    rw [if_neg hfull]
    rfl
  · intro mir isource irec isb corrchunk pc mir1 hmask hupd
    unfold read_mir_select
    rw [hmask]
    try dsimp only
    unfold updateLeavesNoRecords at hupd
    cases hu : updateFilter mir1 with
    | none => rw [hu] at hupd; cases hupd
    | some p =>
      rw [hu] at hupd
      try dsimp only at hupd
      try rw [hu]
      try dsimp only
      cases p with
      | mk m2 ch =>
        try dsimp only at hupd
        have hemp : m2.in_data = [] := List.isEmpty_iff.mp hupd
        try dsimp only
        rw [hemp]
        rfl

/-- Witness for the amended C10 theorem at concrete datasets: an empty
dataset, an empty isb list on s0, and an isource selection on s0 matching
zero sources. -/
theorem read_mir_empty_selection_witness :
    read_mir_select emptyMir none none none none false =
      .error "No valid sources selected!" ∧
    read_mir_select s0 none (some 0) (some []) none false =
      .error "No valid sidebands selected!" ∧
    read_mir_select s0 (some [2]) (some 0) none none false =
      .error "No valid records matching those selections!" := by
  refine ⟨?_, ?_, ?_⟩
  · exact read_mir_empty_selection_errors.1 emptyMir none none none none false rfl
  · exact read_mir_empty_selection_errors.2.1 s0 none 0 none false (by decide)
  · exact read_mir_empty_selection_errors.2.2 s0 (some [2]) (some 0) none none false
      { s0 with use_in := [false], use_bl := [true], use_sp := [true] } rfl (by decide)

/-- Counterexample to C10 as stated: on s0 (one source, id 1), selecting
isource = [2] matches zero sources, yet read_mir does not raise
"No valid sources selected!" — it raises the record-level error
instead. -/
theorem read_mir_source_error_counterexample :
    read_mir_select s0 (some [2]) (some 0) none none false =
      .error "No valid records matching those selections!" ∧
    read_mir_select s0 (some [2]) (some 0) none none false ≠
      .error "No valid sources selected!" := by
  constructor
  · rfl
  · intro hcon
    have h1 : read_mir_select s0 (some [2]) (some 0) none none false =
        .error "No valid records matching those selections!" := rfl
    rw [h1] at hcon
    have h2 : "No valid records matching those selections!" = "No valid sources selected!" := by
      injection hcon
    exact absurd h2 (by decide)

/-- One unfolding step of scanAutoLoop with positive fuel. -/
theorem scanAutoLoop_step (file : List Nat) (fuel : Nat) (nchunks last_offset data_offset : Int)
    (marker ac_size : Nat) (acc : List AcRow) :
    scanAutoLoop file (fuel + 1) nchunks last_offset data_offset marker ac_size acc =
      (if data_offset < (file.length : Int) then
        match readAutoHeader file data_offset with
        | none => .error "IndexError: index 0 is out of bounds for axis 0 with size 0"
        | some (antenna, nChunks, scan, dhrs) =>
          if data_offset = 0 then
            let nchunks1 := if Int.fmod (file.length : Int) (autoRecSize nchunks) ≠ 0 then nChunks
              else nchunks
            if Int.fmod (file.length : Int) (autoRecSize nchunks) ≠ 0 ∧
                Int.fmod (file.length : Int) (autoRecSize nchunks1) ≠ 0 then
              .error "Could not determine auto-correlation record size!"
            else
              let last1 := 4 * 2 ^ 14 * nchunks1 * 2
              let sizeI := Int.fdiv (file.length : Int) (autoRecSize nchunks1)
              if sizeI < 0 then .error "ValueError: negative dimensions are not allowed"
              else if marker < sizeI.toNat then
                scanAutoLoop file fuel nchunks1 last1 (data_offset + last1 + 20) (marker + 1)
                  sizeI.toNat
                  (acc ++ [⟨scan, (marker : Int) + 1, antenna, nchunks1, last1 + 20, data_offset,
                    dhrs⟩])
              else .error "IndexError: marker is out of bounds"
          else
            if marker < ac_size then
              scanAutoLoop file fuel nchunks last_offset (data_offset + last_offset + 20)
                (marker + 1) ac_size
                (acc ++ [⟨scan, (marker : Int) + 1, antenna, nchunks, last_offset + 20, data_offset,
                  dhrs⟩])
            else .error "IndexError: marker is out of bounds"
      else .ok acc) := rfl

/-- The steady-state loop of scan_auto_data: once the record size R has
been fixed by the first iteration, every later iteration reads one full
header inside the file and advances by R bytes, so a file of exactly K
records is walked to completion. -/
theorem scanAutoLoop_ok (file : List Nat) (nchunks : Int) (R : Int)
    (hR : 20 ≤ R) (K : Nat) (hlen : (file.length : Int) = R * K) :
    ∀ (d : Nat) (j : Nat) (acc : List AcRow) (fuel : Nat), j + d = K → 1 ≤ j → d < fuel →
      ∃ l, scanAutoLoop file fuel nchunks (R - 20) ((j : Int) * R) j K acc = .ok l := by
  intro d
  induction d with
  | zero =>
    intro j acc fuel hjd hj hfuel
    cases fuel with
    | zero => omega
    | succ f =>
      rw [scanAutoLoop_step]
      have hoff : ¬ ((j : Int) * R < (file.length : Int)) := by
        rw [hlen]
        have hjK : j = K := by omega
        rw [hjK]
        have hcomm : (K : Int) * R = R * (K : Int) := mul_comm _ _
        omega
      rw [if_neg hoff]
      exact ⟨acc, rfl⟩
  | succ d ih =>
    intro j acc fuel hjd hj hfuel
    cases fuel with
    | zero => omega
    | succ f =>
      rw [scanAutoLoop_step]
      have hjK : j < K := by omega
      have hoff : (j : Int) * R < (file.length : Int) := by
        rw [hlen]
        have h1 : (j : Int) < (K : Int) := by exact_mod_cast hjK
        have h2 : (0 : Int) < R := by omega
        calc (j : Int) * R < (K : Int) * R := by
              exact mul_lt_mul_of_pos_right h1 h2
          _ = R * K := by ring
      rw [if_pos hoff]
      have hread : readAutoHeader file ((j : Int) * R) =
          some (int32At file ((j : Int) * R).toNat, int32At file (((j : Int) * R).toNat + 4),
            int32At file (((j : Int) * R).toNat + 8),
            (file.drop (((j : Int) * R).toNat + 12)).take 8) := by
        unfold readAutoHeader
        have hjRnn : 0 ≤ (j : Int) * R := by positivity
        rw [if_pos]
        constructor
        · exact hjRnn
        · have hjR : (j : Int) * R + R ≤ (file.length : Int) := by
            rw [hlen]
            have h1 : (j : Int) + 1 ≤ (K : Int) := by exact_mod_cast hjK
            nlinarith
          omega
      rw [hread]
      have hne : ¬ ((j : Int) * R = 0) := by
        have h2 : (0 : Int) < R := by omega
        have h1 : (1 : Int) ≤ (j : Int) := by exact_mod_cast hj
        nlinarith
      try dsimp only
      rw [if_neg hne]
      rw [if_pos hjK]
      have harith : (j : Int) * R + (R - 20) + 20 = ((j + 1 : Nat) : Int) * R := by
        push_cast
        ring
      rw [harith]
      exact ih (j + 1) _ f (by omega) (by omega) (by omega)

/-- C7 amended: for an autoCorrelations file whose size is not an exact
multiple of the expected record size under the default chunk count,
scan_auto_data re-derives the chunk count from the first record's declared
nChunks value; provided the file holds the full 20-byte first header:
(a) if the re-derived record size does not evenly divide the file size,
it raises the index-derivation error "Could not determine
auto-correlation record size!", and
(b) if the declared chunk count is nonnegative and the re-derived record
size evenly divides the file size, the scan succeeds.
(A file shorter than the 20-byte header instead fails with an
out-of-bounds IndexError on the empty first read, and a negative declared
chunk count whose record size divides the file size fails with np.zeros'
negative-dimensions ValueError, not with success.) -/
theorem scan_auto_data_rederive (file : List Nat)
    (hmod : Int.fmod (file.length : Int) (autoRecSize 8) ≠ 0) :
    (20 ≤ file.length →
      Int.fmod (file.length : Int) (autoRecSize (int32At file 4)) ≠ 0 →
      scan_auto_data file 8 = .error "Could not determine auto-correlation record size!") ∧
    (20 ≤ file.length → 0 ≤ int32At file 4 →
      Int.fmod (file.length : Int) (autoRecSize (int32At file 4)) = 0 →
      ∃ l, scan_auto_data file 8 = .ok l) := by
  have hstart : ∀ res : Except String (List AcRow), scanAutoLoop file (file.length + 1) 8 0 0 0 0 [] = res →
      scan_auto_data file 8 = res := by
    intro res hres
    rw [← hres]
    rfl
  constructor
  · intro hlen hbad
    apply hstart
    rw [scanAutoLoop_step]
    have hpos : (0 : Int) < (file.length : Int) := by
      omega
    rw [if_pos hpos]
    have hread : readAutoHeader file 0 = some (int32At file 0, int32At file 4, int32At file 8,
        (file.drop 12).take 8) := by
      unfold readAutoHeader
      rw [if_pos]
      · rfl
      · constructor
        · omega
        · simp
          omega
    rw [hread]
    try dsimp only
    rw [if_pos rfl]
    rw [if_pos hmod]
    rw [if_pos ⟨hmod, hbad⟩]
  · intro hlen hnn hdvd
    suffices hgoal : ∃ l, scanAutoLoop file (file.length + 1) 8 0 0 0 0 [] = .ok l by
      obtain ⟨l, hl⟩ := hgoal
      exact ⟨l, hstart _ hl⟩
    rw [scanAutoLoop_step]
    have hpos : (0 : Int) < (file.length : Int) := by omega
    rw [if_pos hpos]
    have hread : readAutoHeader file 0 = some (int32At file 0, int32At file 4, int32At file 8,
        (file.drop 12).take 8) := by
      unfold readAutoHeader
      rw [if_pos]
      · rfl
      · constructor
        · omega
        · simp
          omega
    rw [hread]
    try dsimp only
    rw [if_pos rfl]
    rw [if_pos hmod]
    rw [if_neg (by
      intro hcon
      exact hcon.2 hdvd)]
    set n := int32At file 4 with hn
    set R := autoRecSize n with hRdef
    have hR : 20 ≤ R := by
      rw [hRdef]
      unfold autoRecSize
      nlinarith
    have hfd : R * Int.fdiv (file.length : Int) R = (file.length : Int) := by
      have := Int.fmod_add_fdiv (file.length : Int) R
      rw [hdvd] at this
      omega
    have hKnn : 0 ≤ Int.fdiv (file.length : Int) R := by
      rw [Int.fdiv_eq_ediv _ (by omega)]
      exact Int.ediv_nonneg (by omega) (by omega)
    have hKpos : 1 ≤ Int.fdiv (file.length : Int) R := by
      rcases Int.lt_or_le (Int.fdiv (file.length : Int) R) 1 with hlt | hge
      · exfalso
        have hK0 : Int.fdiv (file.length : Int) R = 0 := by omega
        rw [hK0, mul_zero] at hfd
        omega
      · exact hge
    have hsizeI : ¬ (Int.fdiv (file.length : Int) R < 0) := by omega
    rw [if_neg hsizeI]
    have hmarker : 0 < (Int.fdiv (file.length : Int) R).toNat := by omega
    rw [if_pos hmarker]
    have hlast : (4 : Int) * 2 ^ 14 * n * 2 = R - 20 := by
      rw [hRdef]
      unfold autoRecSize
      ring
    have hKlen : ((Int.fdiv (file.length : Int) R).toNat : Int) = Int.fdiv (file.length : Int) R := by
      omega
    have hlenK : (file.length : Int) = R * ((Int.fdiv (file.length : Int) R).toNat : Nat) := by
      rw [hKlen]
      omega
    have hfuel : (Int.fdiv (file.length : Int) R).toNat - 1 < file.length := by
      have h20 : 20 * Int.fdiv (file.length : Int) R ≤ (file.length : Int) := by
        nlinarith
      omega
    rw [hlast]
    have hoff1 : (0 : Int) + (R - 20) + 20 = ((1 : Nat) : Int) * R := by
      push_cast
      ring
    rw [hoff1]
    have h20 : 20 * Int.fdiv (file.length : Int) R ≤ (file.length : Int) := by
      nlinarith
    exact scanAutoLoop_ok file n R hR (Int.fdiv (file.length : Int) R).toNat hlenK
      ((Int.fdiv (file.length : Int) R).toNat - 1) 1 _ file.length (by omega) (by omega)
      (by omega)

/-- Witness for the amended C7 theorem on the 20-byte file f20 (size 20
is not a multiple of the default record size; the declared chunk count 0
re-derives a 20-byte record size that divides exactly). -/
theorem scan_auto_data_rederive_witness :
    (Int.fmod ((f20.length : Nat) : Int) (autoRecSize 8) ≠ 0) ∧
    (∃ l, scan_auto_data f20 8 = .ok l) := by
  refine ⟨by decide, ?_⟩
  exact (scan_auto_data_rederive f20 (by decide)).2 (by decide) (by decide) (by decide)

/-- Counterexample to C7 as stated: the 10-byte all-zero file is in the
claim's scope (its size is not a multiple of the default record size) but
scan_auto_data neither succeeds nor raises the index-derivation error —
the first header read comes back empty and raises a plain out-of-bounds
IndexError. -/
theorem scan_auto_data_short_counterexample :
    Int.fmod ((f10.length : Nat) : Int) (autoRecSize 8) ≠ 0 ∧
    scan_auto_data f10 8 = .error "IndexError: index 0 is out of bounds for axis 0 with size 0" ∧
    scan_auto_data f10 8 ≠ .error "Could not determine auto-correlation record size!" := by
  refine ⟨by decide, rfl, ?_⟩
  intro hcon
  have h1 : scan_auto_data f10 8 =
      .error "IndexError: index 0 is out of bounds for axis 0 with size 0" := rfl
  rw [h1] at hcon
  have h2 : "IndexError: index 0 is out of bounds for axis 0 with size 0" =
      "Could not determine auto-correlation record size!" := by
    injection hcon
  exact absurd h2 (by decide)

/-- One unfolding step of scanLoop with positive fuel. -/
theorem scanLoop_step (file : List Nat) (fuel : Nat) (data_offset : Int)
    (acc : List (Int × (Int × Int))) :
    scanLoop file (fuel + 1) data_offset acc =
      (if data_offset < (file.length : Int) then
        match readHeader file data_offset with
        | none => none
        | some (inhid, insize) =>
          scanLoop file fuel (data_offset + insize + 8) (acc ++ [(inhid, (insize + 8, data_offset))])
      else some acc) := rfl

/-- Bytes of an appended file, read past the prefix. -/
theorem byteAt_append (pre rest : List Nat) (i : Nat) :
    byteAt (pre ++ rest) (pre.length + i) = byteAt rest i := by
  unfold byteAt
  rw [List.getD_append_right _ _ _ _ (by omega)]
  congr 1
  omega

/-- int32Bytes always encodes into four bytes. -/
theorem int32Bytes_length (v : Int) : (int32Bytes v).length = 4 := rfl

/-- Little-endian int32 round trip: reading back an encoded in-range value
at its offset recovers it. -/
theorem int32At_encode (pre tail : List Nat) (v : Int)
    (hv1 : -2147483648 ≤ v) (hv2 : v < 2147483648) :
    int32At (pre ++ (int32Bytes v ++ tail)) pre.length = v := by
  have h0 := byteAt_append pre (int32Bytes v ++ tail) 0
  rw [Nat.add_zero] at h0
  have h1 := byteAt_append pre (int32Bytes v ++ tail) 1
  have h2 := byteAt_append pre (int32Bytes v ++ tail) 2
  have h3 := byteAt_append pre (int32Bytes v ++ tail) 3
  unfold int32At
  rw [h0, h1, h2, h3]
  have hb0 : byteAt (int32Bytes v ++ tail) 0 = (v % 4294967296).toNat % 256 := rfl
  have hb1 : byteAt (int32Bytes v ++ tail) 1 = (v % 4294967296).toNat / 256 % 256 := rfl
  have hb2 : byteAt (int32Bytes v ++ tail) 2 = (v % 4294967296).toNat / 65536 % 256 := rfl
  have hb3 : byteAt (int32Bytes v ++ tail) 3 = (v % 4294967296).toNat / 16777216 % 256 := rfl
  rw [hb0, hb1, hb2, hb3]
  try dsimp only
  split <;> omega

/-- Total byte length of an encoded blob. -/
theorem encodeBlob_length (recs : List (Int × List Nat)) :
    (encodeBlob recs).length = (recs.map (fun r => r.2.length + 8)).sum := by
  induction recs with
  | nil => rfl
  | cons r rest ih =>
    show (encodeRec r ++ encodeBlob rest).length = _
    rw [List.length_append, ih]
    show (int32Bytes r.1 ++ int32Bytes (r.2.length : Int) ++ r.2).length + _ = _
    simp [int32Bytes_length, List.map_cons]
    omega

/-- scanLoop walks exactly through a well-formed blob region, consuming
one fuel per record and accumulating the expected index entries. -/
theorem scanLoop_through :
    ∀ (recs : List (Int × List Nat)) (pre tail : List Nat) (acc : List (Int × (Int × Int)))
      (fuel : Nat),
      (∀ r ∈ recs, -2147483648 ≤ r.1 ∧ r.1 < 2147483648 ∧ (r.2.length : Int) < 2147483648) →
      scanLoop (pre ++ (encodeBlob recs ++ tail)) (fuel + recs.length) (pre.length : Int) acc =
        scanLoop (pre ++ (encodeBlob recs ++ tail)) fuel
          ((pre.length : Int) + ((encodeBlob recs).length : Int))
          (acc ++ scanExpected recs (pre.length : Int)) := by
  intro recs
  induction recs with
  | nil =>
    intro pre tail acc fuel hwf
    show scanLoop _ (fuel + 0) _ _ = _
    rw [Nat.add_zero]
    simp [scanExpected, encodeBlob]
  | cons r rest ih =>
    intro pre tail acc fuel hwf
    have hshape : encodeBlob (r :: rest) ++ tail =
        int32Bytes r.1 ++ (int32Bytes (r.2.length : Int) ++ (r.2 ++ (encodeBlob rest ++ tail))) := by
      show (encodeRec r ++ encodeBlob rest) ++ tail = _
      unfold encodeRec
      simp [List.append_assoc]
    have hlen : (pre ++ (encodeBlob (r :: rest) ++ tail)).length =
        pre.length + 8 + r.2.length + (encodeBlob rest).length + tail.length := by
      rw [hshape]
      simp [int32Bytes_length]
      omega
    have hstep : fuel + (r :: rest).length = (fuel + rest.length) + 1 := by
      simp [List.length_cons]
      omega
    rw [hstep, scanLoop_step]
    have hoff : (pre.length : Int) < ((pre ++ (encodeBlob (r :: rest) ++ tail)).length : Int) := by
      rw [hlen]
      push_cast
      omega
    rw [if_pos hoff]
    have hwfr := hwf r (by simp)
    have hid : int32At (pre ++ (encodeBlob (r :: rest) ++ tail)) pre.length = r.1 := by
      rw [hshape, ← List.append_assoc pre]
      rw [List.append_assoc pre]
      exact int32At_encode pre _ r.1 hwfr.1 hwfr.2.1
    have hsz : int32At (pre ++ (encodeBlob (r :: rest) ++ tail)) (pre.length + 4)
        = (r.2.length : Int) := by
      have hre : pre ++ (encodeBlob (r :: rest) ++ tail) =
          (pre ++ int32Bytes r.1) ++ (int32Bytes (r.2.length : Int) ++
            (r.2 ++ (encodeBlob rest ++ tail))) := by
        rw [hshape]
        simp [List.append_assoc]
      have hlen4 : pre.length + 4 = (pre ++ int32Bytes r.1).length := by
        simp [int32Bytes_length]
      rw [hre, hlen4]
      exact int32At_encode _ _ _ (by omega) hwfr.2.2
    have hread : readHeader (pre ++ (encodeBlob (r :: rest) ++ tail)) (pre.length : Int) =
        some (r.1, (r.2.length : Int)) := by
      unfold readHeader
      rw [if_pos ⟨by omega, by rw [hlen]; simp; omega⟩]
      simp only [Int.toNat_natCast]
      rw [hid, hsz]
    rw [hread]
    try dsimp only
    have hre2 : pre ++ (encodeBlob (r :: rest) ++ tail) =
        (pre ++ encodeRec r) ++ (encodeBlob rest ++ tail) := by
      show pre ++ ((encodeRec r ++ encodeBlob rest) ++ tail) = _
      simp [List.append_assoc]
    have hoffnext : (pre.length : Int) + (r.2.length : Int) + 8
        = (((pre ++ encodeRec r).length : Nat) : Int) := by
      unfold encodeRec
      simp [int32Bytes_length]
      ring
    rw [hoffnext, hre2]
    rw [ih (pre ++ encodeRec r) tail _ fuel (fun x hx => hwf x (by simp [hx]))]
    have hreclen : (encodeRec r).length = 8 + r.2.length := by
      unfold encodeRec
      simp [int32Bytes_length]
      omega
    congr 1
    · push_cast [List.length_append, hreclen, encodeBlob_length, List.map_cons, List.sum_cons]
      ring
    · rw [List.append_assoc]
      congr 1
      have hsx : scanExpected (r :: rest) ((pre.length : Nat) : Int) =
          (r.1, ((r.2.length : Int) + 8, ((pre.length : Nat) : Int))) ::
            scanExpected rest (((pre.length : Nat) : Int) + ((r.2.length : Nat) : Int) + 8) := rfl
      rw [hsx, ← hoffnext]
      rfl

/-- scanExpected produces one entry per record. -/
theorem scanExpected_length (recs : List (Int × List Nat)) :
    ∀ off, (scanExpected recs off).length = recs.length := by
  induction recs with
  | nil => intro off; rfl
  | cons r rest ih =>
    intro off
    show (_ :: _).length = _
    simp [ih]

/-- scanExpected is keyed by the record ids in order. -/
theorem scanExpected_keys (recs : List (Int × List Nat)) :
    ∀ off, (scanExpected recs off).map (fun e => e.1) = recs.map (fun r => r.1) := by
  induction recs with
  | nil => intro off; rfl
  | cons r rest ih =>
    intro off
    show _ :: _ = _ :: _
    rw [ih]

/-- The recorded sizes of scanExpected (payload + 8-byte header each) sum
to the byte length of the encoded blob. -/
theorem scanExpected_sum (recs : List (Int × List Nat)) :
    ∀ off, ((scanExpected recs off).map (fun e => e.2.1)).sum = ((encodeBlob recs).length : Int) := by
  induction recs with
  | nil => intro off; rfl
  | cons r rest ih =>
    intro off
    show ((r.2.length : Int) + 8) + ((scanExpected rest _).map (fun e => e.2.1)).sum = _
    rw [ih]
    have hb : encodeBlob (r :: rest) = encodeRec r ++ encodeBlob rest := rfl
    have hreclen : (encodeRec r).length = 8 + r.2.length := by
      unfold encodeRec
      simp [int32Bytes_length]
      omega
    rw [hb, List.length_append, hreclen]
    push_cast
    ring

/-- Every offset recorded by scanExpected is at least the start offset. -/
theorem scanExpected_offsets_lb (recs : List (Int × List Nat)) :
    ∀ off x, x ∈ (scanExpected recs off).map (fun e => e.2.2) → off ≤ x := by
  induction recs with
  | nil => intro off x hx; cases hx
  | cons r rest ih =>
    intro off x hx
    have hsx : scanExpected (r :: rest) off =
        (r.1, ((r.2.length : Int) + 8, off)) ::
          scanExpected rest (off + (r.2.length : Int) + 8) := rfl
    rw [hsx, List.map_cons, List.mem_cons] at hx
    rcases hx with he | hm
    · simp at he
      omega
    · have := ih (off + (r.2.length : Int) + 8) x hm
      have hnn : (0 : Int) ≤ (r.2.length : Int) := Int.natCast_nonneg _
      omega

/-- The offsets recorded by scanExpected are strictly increasing. -/
theorem scanExpected_offsets_increasing (recs : List (Int × List Nat)) :
    ∀ off, ((scanExpected recs off).map (fun e => e.2.2)).Pairwise (fun a b => a < b) := by
  induction recs with
  | nil => intro off; exact List.Pairwise.nil
  | cons r rest ih =>
    intro off
    show List.Pairwise _ (off :: _)
    rw [List.pairwise_cons]
    refine ⟨?_, ih _⟩
    intro y hy
    have hlb := scanExpected_offsets_lb rest (off + (r.2.length : Int) + 8) y hy
    have hnn : (0 : Int) ≤ (r.2.length : Int) := Int.natCast_nonneg _
    omega

/-- A blob of N records is at least N bytes long (each record carries an
8-byte header). -/
theorem encodeBlob_length_ge (recs : List (Int × List Nat)) :
    recs.length ≤ (encodeBlob recs).length := by
  rw [encodeBlob_length]
  induction recs with
  | nil => simp
  | cons r rest ih =>
    simp only [List.map_cons, List.sum_cons, List.length_cons]
    omega

/-- C6: scanning a well-formed visibility blob that is the concatenation
of N records with distinct in-range ids, each prefixed by an (id,
byte-size) header whose declared size matches its actual payload, yields
an offset index with exactly N entries, keyed by the record ids (hence
all distinct), whose byte offsets are strictly increasing and whose
recorded sizes (payload size plus the 8-byte header) sum to the total
file size. -/
theorem scan_int_start_complete (recs : List (Int × List Nat))
    (hwf : ∀ r ∈ recs, -2147483648 ≤ r.1 ∧ r.1 < 2147483648 ∧ (r.2.length : Int) < 2147483648)
    (hnodup : (recs.map (fun r => r.1)).Nodup) :
    ∃ d, scan_int_start (encodeBlob recs) = some d ∧
      d.length = recs.length ∧
      (d.map (fun e => e.1)).Nodup ∧
      d.map (fun e => e.1) = recs.map (fun r => r.1) ∧
      ((d.map (fun e => e.2.2)).Pairwise (fun a b => a < b)) ∧
      (d.map (fun e => e.2.1)).sum = ((encodeBlob recs).length : Int) := by
  have hN := encodeBlob_length_ge recs
  refine ⟨scanExpected recs 0, ?_, scanExpected_length recs 0, ?_, scanExpected_keys recs 0,
    scanExpected_offsets_increasing recs 0, scanExpected_sum recs 0⟩
  · unfold scan_int_start
    have hfuel : (encodeBlob recs).length + 1 =
        ((encodeBlob recs).length + 1 - recs.length) + recs.length := by omega
    rw [hfuel]
    have hthrough := scanLoop_through recs [] []
      [] ((encodeBlob recs).length + 1 - recs.length) hwf
    simp only [List.nil_append, List.append_nil, List.length_nil, Nat.cast_zero,
      zero_add] at hthrough
    rw [hthrough]
    have hF : (encodeBlob recs).length + 1 - recs.length =
        ((encodeBlob recs).length - recs.length) + 1 := by omega
    rw [hF, scanLoop_step]
    rw [if_neg (by omega)]
  · rw [scanExpected_keys recs 0]
    exact hnodup

/-- Witness for C6 on the concrete two-record blob recs6. -/
theorem scan_int_start_complete_witness :
    ∃ d, scan_int_start (encodeBlob recs6) = some d ∧
      d.length = recs6.length ∧
      (d.map (fun e => e.1)).Nodup ∧
      d.map (fun e => e.1) = recs6.map (fun r => r.1) ∧
      ((d.map (fun e => e.2.2)).Pairwise (fun a b => a < b)) ∧
      (d.map (fun e => e.2.1)).sum = ((encodeBlob recs6).length : Int) :=
  scan_int_start_complete recs6 (by decide) (by decide)

/-- C8 amended: a record whose header declares a payload size larger than
the bytes remaining does NOT make scan_int_start fail: the oversized
declared size pushes the next offset to or past the end of the file, the
walk stops, and the function returns the offset index including the
over-declared record.  (scan_int_start fails only when a header position
falls strictly inside the file with fewer than 8 bytes remaining.) -/
theorem scan_int_start_truncated (recs : List (Int × List Nat))
    (hwf : ∀ r ∈ recs, -2147483648 ≤ r.1 ∧ r.1 < 2147483648 ∧ (r.2.length : Int) < 2147483648)
    (id sz : Int) (bodyBytes : List Nat)
    (hid1 : -2147483648 ≤ id) (hid2 : id < 2147483648)
    (hsz1 : 0 ≤ sz) (hsz2 : sz < 2147483648)
    (htrunc : (bodyBytes.length : Int) < sz) :
    scan_int_start (encodeBlob recs ++ (int32Bytes id ++ (int32Bytes sz ++ bodyBytes))) =
      some (scanExpected recs 0 ++ [(id, (sz + 8, ((encodeBlob recs).length : Int)))]) := by
  have hN := encodeBlob_length_ge recs
  set file := encodeBlob recs ++ (int32Bytes id ++ (int32Bytes sz ++ bodyBytes)) with hfile
  have hflen : file.length = (encodeBlob recs).length + 8 + bodyBytes.length := by
    rw [hfile]
    simp [int32Bytes_length]
    omega
  unfold scan_int_start
  have hfuel : file.length + 1 = ((file.length + 1 - recs.length)) + recs.length := by omega
  rw [hfuel]
  have hthrough := scanLoop_through recs [] (int32Bytes id ++ (int32Bytes sz ++ bodyBytes))
    [] (file.length + 1 - recs.length) hwf
  simp only [List.nil_append, List.length_nil, Nat.cast_zero, zero_add] at hthrough
  rw [← hfile] at hthrough
  rw [hthrough]
  have hF : file.length + 1 - recs.length = ((file.length - recs.length - 1) + 1) + 1 := by omega
  rw [hF, scanLoop_step]
  have hoff : (((encodeBlob recs).length : Nat) : Int) < (file.length : Int) := by
    rw [hflen]
    push_cast
    omega
  rw [if_pos hoff]
  have hid : int32At file ((encodeBlob recs).length) = id := by
    rw [hfile]
    exact int32At_encode _ _ _ hid1 hid2
  have hsz : int32At file ((encodeBlob recs).length + 4) = sz := by
    have hre : file = (encodeBlob recs ++ int32Bytes id) ++ (int32Bytes sz ++ bodyBytes) := by
      rw [hfile]
      simp [List.append_assoc]
    have hlen4 : (encodeBlob recs).length + 4 = (encodeBlob recs ++ int32Bytes id).length := by
      simp [int32Bytes_length]
    rw [hre, hlen4]
    exact int32At_encode _ _ _ (by omega) hsz2
  have hread : readHeader file (((encodeBlob recs).length : Nat) : Int) = some (id, sz) := by
    unfold readHeader
    rw [if_pos ⟨by omega, by rw [hflen]; simp only [Int.toNat_natCast]; omega⟩]
    simp only [Int.toNat_natCast]
    rw [hid, hsz]
  rw [hread]
  try dsimp only
  rw [scanLoop_step]
  rw [if_neg (by
    rw [hflen]
    push_cast
    omega)]

/-- Witness for the amended C8 theorem: two well-formed records followed
by a header declaring 50 payload bytes with only 2 bytes remaining. -/
theorem scan_int_start_truncated_witness :
    scan_int_start (encodeBlob recs6 ++ (int32Bytes 9 ++ (int32Bytes 50 ++ [1, 2]))) =
      some (scanExpected recs6 0 ++ [(9, (58, ((encodeBlob recs6).length : Int)))]) :=
  scan_int_start_truncated recs6 (by decide) 9 50 [1, 2] (by decide) (by decide) (by decide)
    (by decide) (by decide)

/-- Counterexample to C8 as stated: file8 is an 8-byte file whose single
header declares a 100-byte payload with 0 bytes remaining, yet
scan_int_start returns an offset index (with the phantom 108-byte record)
instead of failing. -/
theorem scan_int_start_truncated_counterexample :
    file8.length = 8 ∧ readHeader file8 0 = some (1, 100) ∧
    scan_int_start file8 = some [(1, (108, 0))] :=
  ⟨rfl, rfl, rfl⟩

/-- optMapM succeeds as soon as every element succeeds. -/
theorem optMapM_isSome {α β : Type} {f : α → Option β} :
    ∀ {l : List α}, (∀ a ∈ l, ∃ b, f a = some b) → ∃ l2, optMapM f l = some l2 := by
  intro l
  induction l with
  | nil => intro _; exact ⟨[], rfl⟩
  | cons a t ih =>
    intro h
    obtain ⟨b, hb⟩ := h a (by simp)
    obtain ⟨bs, hbs⟩ := ih (fun x hx => h x (by simp [hx]))
    exact ⟨b :: bs, by unfold optMapM; rw [hb, hbs]⟩

/-- pyGet finds the value when the key is present and every binding of
that key carries the same value. -/
theorem pyGet_of_mem_value_unique {α β : Type} [DecidableEq α] :
    ∀ {d : List (α × β)} {k : α} {v : β}, (k, v) ∈ d →
      (∀ p ∈ d, p.1 = k → p.2 = v) → pyGet d k = some v := by
  intro d
  induction d with
  | nil => intro k v h _; cases h
  | cons p t ih =>
    intro k v hmem huniq
    unfold pyGet
    cases hr : pyGet t k with
    | some w =>
      have hw := pyGet_mem hr
      have hwv : w = v := huniq (k, w) (by simp [hw]) rfl
      rw [hwv]
    | none =>
      rcases List.mem_cons.mp hmem with he | hm
      · rw [← he]
        simp
      · exact absurd (List.mem_map_of_mem Prod.fst hm) (pyGet_eq_none_iff.mp hr)

/-- The pair (i, l[i]) is an entry of enum. -/
theorem self_mem_enum {α : Type} {l : List α} {i : Nat} (h : i < l.length) :
    (i, l[i]) ∈ l.enum := by
  have hlen : i < l.enum.length := by rw [List.enum_length]; exact h
  have hget := List.getElem_enum l i hlen
  rw [← hget]
  exact List.getElem_mem hlen

/-- Splitting a sum over pointwise-added maps. -/
theorem sum_map_add_split {α : Type} (f g : α → Nat) :
    ∀ (u : List α), (u.map (fun a => f a + g a)).sum = (u.map f).sum + (u.map g).sum := by
  intro u
  induction u with
  | nil => rfl
  | cons a t ih =>
    simp only [List.map_cons, List.sum_cons, ih]
    omega

/-- Indicator sum over a duplicate-free list containing the key. -/
theorem sum_indicator_one {k : Int} :
    ∀ {u : List Int}, u.Nodup → k ∈ u →
      (u.map (fun a => if k = a then (1 : Nat) else 0)).sum = 1 := by
  intro u
  induction u with
  | nil => intro _ h; cases h
  | cons a t ih =>
    intro hnd hmem
    simp only [List.map_cons, List.sum_cons]
    by_cases hk : k = a
    · rw [if_pos hk]
      have hkt : k ∉ t := by rw [hk]; exact (List.nodup_cons.mp hnd).1
      have hz : (t.map (fun b => if k = b then (1 : Nat) else 0)).sum = 0 := by
        apply List.sum_eq_zero
        intro x hx
        obtain ⟨b, hb, hbx⟩ := List.mem_map.mp hx
        rw [← hbx]
        rw [if_neg (fun hc => hkt (by rw [hc]; exact hb))]
      omega
    · rw [if_neg hk]
      have hmt : k ∈ t := by
        rcases List.mem_cons.mp hmem with h | h
        · exact absurd h hk
        · exact h
      rw [ih (List.nodup_cons.mp hnd).2 hmt]

/-- Partition counting: filtering a list by each key of a duplicate-free
key list covering all its elements partitions it, so the filter lengths
sum to the full length. -/
theorem partition_count {α : Type} (keyf : α → Int) :
    ∀ (l : List α) (u : List Int), u.Nodup → (∀ x ∈ l, keyf x ∈ u) →
      (u.map (fun a => (l.filter (fun x => keyf x == a)).length)).sum = l.length := by
  intro l
  induction l with
  | nil =>
    intro u _ _
    apply List.sum_eq_zero
    intro x hx
    obtain ⟨b, hb, hbx⟩ := List.mem_map.mp hx
    simp [← hbx]
  | cons x t ih =>
    intro u hnd hmem
    have hx := hmem x (by simp)
    have hsplit : ∀ a : Int, ((x :: t).filter (fun z => keyf z == a)).length =
        (if keyf x = a then (1 : Nat) else 0) + (t.filter (fun z => keyf z == a)).length := by
      intro a
      by_cases hxa : keyf x = a
      · simp [List.filter_cons, hxa]
        omega
      · simp [List.filter_cons, hxa]
    simp only [hsplit]
    rw [sum_map_add_split, sum_indicator_one hnd hx,
      ih u hnd (fun y hy => hmem y (by simp [hy]))]
    simp only [List.length_cons]
    omega

/-- getD of an in-range index. -/
theorem getD_eq_getElem_of_lt {α : Type} {l : List α} {i : Nat} {d : α} (h : i < l.length) :
    l.getD i d = l[i] := by
  rw [List.getD_eq_getElem?_getD, List.getElem?_eq_getElem h]
  rfl

/-- Fancy indexing at a nonnegative in-range index. -/
theorem npGet_nonneg {l : List Int} {i : Int} (h0 : 0 ≤ i) (hlt : i.toNat < l.length) :
    npGet l i = some (l[i.toNat]) := by
  unfold npGet
  rw [if_pos h0, List.getElem?_eq_getElem hlt]

/-- Slicing with nonnegative in-range endpoints. -/
theorem npSlice_nonneg (l : List Int) (i j : Int) (h0 : 0 ≤ i) (hij : i ≤ j)
    (hj : j ≤ (l.length : Int)) :
    npSlice l i j = (l.drop i.toNat).take (j.toNat - i.toNat) := by
  unfold npSlice npClamp
  try dsimp only
  rw [if_neg (show ¬ i < 0 by omega), if_neg (show ¬ j < 0 by omega)]
  have hmi : min i.toNat l.length = i.toNat := by omega
  have hmj : min j.toNat l.length = j.toNat := by omega
  rw [hmi, hmj]

/-- pairUp of a mapped even-length slice, channel by channel. -/
theorem pairUp_map_slice {γ : Type} (g : Int → γ) :
    ∀ (C : Nat) (start : Nat) (pack : List Int), start + 2 * C ≤ pack.length →
      pairUp (((pack.drop start).take (2 * C)).map g) =
        (List.range C).map (fun k =>
          (g (pack.getD (start + 2 * k) 0), g (pack.getD (start + 2 * k + 1) 0))) := by
  intro C
  induction C with
  | zero =>
    intro start pack h
    simp [pairUp]
  | succ C ih =>
    intro start pack h
    have h0 : start < pack.length := by omega
    have h1 : start + 1 < pack.length := by omega
    rw [List.drop_eq_getElem_cons h0, List.drop_eq_getElem_cons h1]
    have htake : 2 * (C + 1) = (2 * C) + 1 + 1 := by omega
    rw [htake]
    simp only [List.take_succ_cons, List.map_cons]
    show (g pack[start], g pack[start + 1]) :: pairUp _ = _
    rw [ih (start + 2) pack (by omega)]
    rw [List.range_succ_eq_map]
    simp only [List.map_cons, List.map_map, Nat.succ_eq_add_one]
    congr 1
    · have hg0 : pack.getD (start + 2 * 0) 0 = pack[start] := by
        simp only [Nat.mul_zero, Nat.add_zero]
        exact getD_eq_getElem_of_lt h0
      have hg1 : pack.getD (start + 2 * 0 + 1) 0 = pack[start + 1] := by
        simp only [Nat.mul_zero, Nat.add_zero]
        exact getD_eq_getElem_of_lt h1
      rw [hg0, hg1]
    · apply List.map_congr_left
      intro k hk
      simp only [Function.comp_apply]
      have e1 : start + 2 + 2 * k = start + 2 * (k + 1) := by omega
      rw [e1]

/-- Under the range conditions of the decode claims, the source decode of
one record coincides with the spec-side reference decode. -/
theorem visDecodeRec_eq_spec (pack : List Int) (sp : SpRow)
    (hd : 0 ≤ sp.dataoff) (hn : 0 ≤ sp.nch)
    (hr : Int.fdiv sp.dataoff 2 + 1 + 2 * sp.nch ≤ (pack.length : Int)) :
    visDecodeRec pack sp = specVisRecord pack sp := by
  have hd2 : 0 ≤ Int.fdiv sp.dataoff 2 := by
    rw [Int.fdiv_eq_ediv _ (by omega)]
    exact Int.ediv_nonneg hd (by omega)
  have hDlt : (Int.fdiv sp.dataoff 2).toNat < pack.length := by omega
  unfold visDecodeRec specVisRecord
  try dsimp only
  rw [npGet_nonneg hd2 hDlt]
  simp only [Option.getD_some]
  rw [npSlice_nonneg pack (Int.fdiv sp.dataoff 2 + 1) (Int.fdiv sp.dataoff 2 + 1 + 2 * sp.nch)
    (by omega) (by omega) (by omega)]
  have hstart : (Int.fdiv sp.dataoff 2 + 1).toNat = (Int.fdiv sp.dataoff 2).toNat + 1 := by omega
  have hcnt : (Int.fdiv sp.dataoff 2 + 1 + 2 * sp.nch).toNat - (Int.fdiv sp.dataoff 2 + 1).toNat
      = 2 * sp.nch.toNat := by omega
  rw [hcnt, hstart]
  rw [pairUp_map_slice (fun m => dyVal (pack[(Int.fdiv sp.dataoff 2).toNat]) m) sp.nch.toNat
    ((Int.fdiv sp.dataoff 2).toNat + 1) pack (by omega)]
  apply List.map_congr_left
  intro k hk
  have hgs : pack.getD ((Int.fdiv sp.dataoff 2).toNat) 0 = pack[(Int.fdiv sp.dataoff 2).toNat] :=
    getD_eq_getElem_of_lt hDlt
  rw [hgs]
  have e1 : (Int.fdiv sp.dataoff 2).toNat + 1 + 2 * k + 1
      = (Int.fdiv sp.dataoff 2).toNat + 2 + 2 * k := by omega
  rw [e1]

/-- The second component of an enum entry is an element of the list. -/
theorem snd_mem_of_mem_enum {α : Type} {l : List α} {pr : Nat × α} (h : pr ∈ l.enum) :
    pr.2 ∈ l := by
  obtain ⟨i, x⟩ := pr
  have hm := List.mem_enum h
  simp only []
  rw [hm.2]
  exact List.getElem_mem hm.1

/-- visGroup succeeds exactly when every record's scale element is
readable, and then returns the nch-grouped tagged decodes. -/
theorem visGroup_eq_some (pack : List Int) (unch : List Int) (recs : List (Nat × SpRow))
    (h : ∀ pr ∈ recs, ∃ b, npGet pack (Int.fdiv pr.2.dataoff 2) = some b) :
    visGroup pack unch recs = some ((unch.map (fun c =>
      (recs.filter (fun pr => pr.2.nch == c)).map
        (fun pr => (pr.1, visDecodeRec pack pr.2)))).flatten) := by
  unfold visGroup
  obtain ⟨l2, hl2⟩ := optMapM_isSome h
  rw [hl2]

/-- Every pair parse_vis_data collects carries an in-range original
position and the decode of exactly the record at that position. -/
theorem visPairs_value {packmap : Int → List Int} {sp_data : List SpRow} :
    ∀ p ∈ visPairs packmap sp_data, p.1 < sp_data.length ∧
      p.2 = visDecodeRec (packmap ((sp_data.getD p.1 spZero).inhid)) (sp_data.getD p.1 spZero) := by
  intro p hp
  unfold visPairs at hp
  obtain ⟨grp, hgrp, hpg⟩ := List.mem_flatten.mp hp
  obtain ⟨a, ha, hga⟩ := List.mem_map.mp hgrp
  rw [← hga] at hpg
  unfold visGroupBody at hpg
  obtain ⟨inner, hinner, hpi⟩ := List.mem_flatten.mp hpg
  obtain ⟨c, hc, hci⟩ := List.mem_map.mp hinner
  rw [← hci] at hpi
  obtain ⟨pr, hpr, hppr⟩ := List.mem_map.mp hpi
  have hpr1 := List.mem_of_mem_filter hpr
  have hen := List.mem_of_mem_filter hpr1
  have hinh : pr.2.inhid = a := by simpa using List.of_mem_filter hpr1
  obtain ⟨i, x⟩ := pr
  have hm := List.mem_enum hen
  rw [← hppr]
  refine ⟨hm.1, ?_⟩
  have hx : sp_data.getD i spZero = x := by
    rw [getD_eq_getElem_of_lt hm.1, ← hm.2]
  simp only []
  rw [hx]
  simp only [] at hinh
  rw [hinh]

/-- For every original position, parse_vis_data collects the decode of
the record at that position (tagged with the position). -/
theorem visPairs_mem {packmap : Int → List Int} {sp_data : List SpRow} (i : Nat)
    (hi : i < sp_data.length) :
    (i, visDecodeRec (packmap ((sp_data[i]).inhid)) (sp_data[i])) ∈ visPairs packmap sp_data := by
  unfold visPairs
  rw [List.mem_flatten]
  refine ⟨visGroupBody packmap sp_data ((sp_data[i]).inhid), List.mem_map_of_mem _ ?_, ?_⟩
  · rw [mem_npUnique]
    exact List.mem_map_of_mem _ (List.getElem_mem hi)
  · unfold visGroupBody
    rw [List.mem_flatten]
    refine ⟨((sp_data.enum.filter (fun pr => pr.2.inhid == (sp_data[i]).inhid)).filter
        (fun pr => pr.2.nch == (sp_data[i]).nch)).map
        (fun pr => (pr.1, visDecodeRec (packmap ((sp_data[i]).inhid)) pr.2)),
      List.mem_map_of_mem _ ?_, ?_⟩
    · rw [mem_npUnique]
      exact List.mem_map_of_mem _ (List.getElem_mem hi)
    · refine List.mem_map.mpr ⟨(i, sp_data[i]), ?_, rfl⟩
      refine List.mem_filter.mpr ⟨List.mem_filter.mpr ⟨self_mem_enum hi, by simp⟩, by simp⟩

/-- parse_vis_data collects exactly one pair per spectral record. -/
theorem visPairs_length {packmap : Int → List Int} {sp_data : List SpRow} :
    (visPairs packmap sp_data).length = sp_data.length := by
  unfold visPairs
  rw [List.length_flatten, List.map_map]
  have hgb : ∀ a ∈ npUnique (sp_data.map (fun s => s.inhid)),
      (List.length ∘ visGroupBody packmap sp_data) a =
      (sp_data.enum.filter (fun pr => pr.2.inhid == a)).length := by
    intro a ha
    simp only [Function.comp_apply]
    unfold visGroupBody
    rw [List.length_flatten, List.map_map]
    have hcomp : ∀ c ∈ npUnique (sp_data.map (fun s => s.nch)),
        (List.length ∘ fun c => ((sp_data.enum.filter
          (fun pr => pr.2.inhid == a)).filter (fun pr => pr.2.nch == c)).map
          (fun pr => (pr.1, visDecodeRec (packmap a) pr.2))) c =
        (fun c => ((sp_data.enum.filter (fun pr => pr.2.inhid == a)).filter
          (fun pr => pr.2.nch == c)).length) c := by
      intro c _
      simp [List.length_map]
    rw [List.map_congr_left hcomp]
    have hinner := partition_count (fun pr : Nat × SpRow => pr.2.nch)
      (sp_data.enum.filter (fun pr => pr.2.inhid == a))
      (npUnique (sp_data.map (fun s => s.nch))) nodup_npUnique
      (fun pr hpr => mem_npUnique.mpr
        (List.mem_map_of_mem _ (snd_mem_of_mem_enum (List.mem_of_mem_filter hpr))))
    exact hinner
  rw [List.map_congr_left hgb]
  have houter := partition_count (fun pr : Nat × SpRow => pr.2.inhid) sp_data.enum
    (npUnique (sp_data.map (fun s => s.inhid))) nodup_npUnique
    (fun pr hpr => mem_npUnique.mpr (List.mem_map_of_mem _ (snd_mem_of_mem_enum hpr)))
  rw [List.enum_length] at houter
  exact houter

/-- C4: for every spectral-record table whose records' packed data lie in
range of their integration's block (nonnegative dataoff and nch, scale
element plus 2*nch mantissas inside the block), parse_vis_data succeeds,
returns one decoded spectrum per record in sp_data table order, and the
decode of record i reads the int16 scale factor s at element dataoff/2
of the block and the following 2*nch int16 mantissas, yielding per
channel k the complex value (pack[d+1+2k], pack[d+2+2k]) * 2^s — i.e.
the spec-side reference decode specVisRecord. -/
theorem parse_vis_data_spec (packmap : Int → List Int) (sp_data : List SpRow)
    (hvalid : ∀ sp ∈ sp_data, 0 ≤ sp.dataoff ∧ 0 ≤ sp.nch ∧
      Int.fdiv sp.dataoff 2 + 1 + 2 * sp.nch ≤ ((packmap sp.inhid).length : Int)) :
    ∃ out, parse_vis_data packmap sp_data = some out ∧
      out.length = sp_data.length ∧
      ∀ i, i < sp_data.length →
        out.getD i [] = specVisRecord (packmap ((sp_data.getD i spZero).inhid))
          (sp_data.getD i spZero) := by
  have hgroups : optMapM (fun a => visGroup (packmap a)
      (npUnique (sp_data.map (fun s => s.nch)))
      (sp_data.enum.filter (fun pr => pr.2.inhid == a)))
      (npUnique (sp_data.map (fun s => s.inhid)))
      = some ((npUnique (sp_data.map (fun s => s.inhid))).map (visGroupBody packmap sp_data)) := by
    apply optMapM_some
    intro a ha
    have hrecs : ∀ pr ∈ sp_data.enum.filter (fun pr => pr.2.inhid == a),
        ∃ b, npGet (packmap a) (Int.fdiv pr.2.dataoff 2) = some b := by
      intro pr hpr
      have hen := List.mem_of_mem_filter hpr
      have hinh : pr.2.inhid = a := by simpa using List.of_mem_filter hpr
      obtain ⟨hd, hn2, hrr⟩ := hvalid pr.2 (snd_mem_of_mem_enum hen)
      rw [hinh] at hrr
      have hd2 : 0 ≤ Int.fdiv pr.2.dataoff 2 := by
        rw [Int.fdiv_eq_ediv _ (by omega)]
        exact Int.ediv_nonneg hd (by omega)
      exact ⟨(packmap a)[(Int.fdiv pr.2.dataoff 2).toNat],
        npGet_nonneg hd2 (by omega)⟩
    exact visGroup_eq_some (packmap a) _ _ hrecs
  have hlen : (visPairs packmap sp_data).length = sp_data.length := visPairs_length
  have hlookup : ∀ j ∈ List.range (visPairs packmap sp_data).length,
      pyGet (visPairs packmap sp_data) j = some (visDecodeRec
        (packmap ((sp_data.getD j spZero).inhid)) (sp_data.getD j spZero)) := by
    intro j hj
    rw [List.mem_range, hlen] at hj
    apply pyGet_of_mem_value_unique
    · have hm : (j, visDecodeRec (packmap ((sp_data[j]).inhid)) (sp_data[j])) ∈
          visPairs packmap sp_data := visPairs_mem j hj
      have hD : sp_data.getD j spZero = sp_data[j] := getD_eq_getElem_of_lt hj
      rw [hD]
      exact hm
    · intro p hp hpk
      have hv := visPairs_value p hp
      rw [hpk] at hv
      exact hv.2
  refine ⟨(List.range (visPairs packmap sp_data).length).map
      (fun j => visDecodeRec (packmap ((sp_data.getD j spZero).inhid)) (sp_data.getD j spZero)),
    ?_, ?_, ?_⟩
  · unfold parse_vis_data
    try dsimp only
    rw [hgroups]
    try dsimp only
    exact optMapM_some hlookup
  · rw [List.length_map, List.length_range, hlen]
  · intro i hi
    have hi2 : i < (visPairs packmap sp_data).length := by rw [hlen]; exact hi
    have hlt : i < ((List.range (visPairs packmap sp_data).length).map
        (fun j => visDecodeRec (packmap ((sp_data.getD j spZero).inhid))
          (sp_data.getD j spZero))).length := by
      simp [hi2]
    rw [List.getD_eq_getElem?_getD, List.getElem?_eq_getElem hlt, Option.getD_some,
      List.getElem_map, List.getElem_range]
    have hD : sp_data.getD i spZero = sp_data[i] := getD_eq_getElem_of_lt hi
    obtain ⟨hd, hn2, hrr⟩ := hvalid (sp_data[i]) (List.getElem_mem hi)
    rw [hD]
    exact visDecodeRec_eq_spec _ _ hd hn2 hrr

/-- Witness for C4 on the one-record table sd4 with scale factor 2 and
mantissa pair (3, -2): the decode is exactly (3, -2) * 2^2 = (12, -8). -/
theorem parse_vis_data_spec_witness :
    (∃ out, parse_vis_data pm4 sd4 = some out ∧
      out.length = sd4.length ∧
      ∀ i, i < sd4.length →
        out.getD i [] = specVisRecord (pm4 ((sd4.getD i spZero).inhid)) (sd4.getD i spZero)) ∧
    parse_vis_data pm4 sd4 = some [[(dyVal 2 3, dyVal 2 (-2))]] ∧
    specVisRecord (pm4 1) (sd4.getD 0 spZero) = [(dyVal 2 3, dyVal 2 (-2))] := by
  refine ⟨parse_vis_data_spec pm4 sd4 (by decide), rfl, rfl⟩

/-- C5 evaluated at the failing input sd5, a spectral-record table whose
integration ids arrive out of order (inhid 2 first, then inhid 1):
parse_vis_data restores sp_data table order through its position
dictionary, but parse_raw_data emits records grouped by SORTED unique
inhid with no final reordering, so at list position 0 the raw mantissas
scaled by 2^scale_factor equal the visibility decode of position 1 — not
of position 0 — contradicting parse_raw_data's own documented "ordered in
the same way as sp_data" contract. -/
theorem parse_raw_data_order_divergence :
    parse_vis_data pm5 sd5 = some [[(dyVal 0 5, dyVal 0 5)], [(dyVal 0 1, dyVal 0 1)]] ∧
    parse_raw_data pm5 sd5 = some ([[1, 1], [5, 5]], [0, 0]) ∧
    rawScaled [1, 1] 0 ≠ [(dyVal 0 5, dyVal 0 5)] ∧
    rawScaled [1, 1] 0 = [(dyVal 0 1, dyVal 0 1)] := by
  refine ⟨rfl, rfl, ?_, rfl⟩
  intro hcon
  have h1 : rawScaled [1, 1] 0 = [(dyVal 0 1, dyVal 0 1)] := rfl
  rw [h1] at hcon
  simp only [List.cons.injEq, Prod.mk.injEq, and_true] at hcon
  norm_num [dyVal] at hcon

end Mir
